import Mathlib

set_option maxRecDepth 4000

/-!
Shallow embedding of the vietnam-qr-generator QR code library (TypeScript).
Sources embedded here:
* `QrEcc` (src/unnamed/part_001)
* `QrMode`, `QrCodeUtil` (src/src/libs/QrMode.ts)
* `QrSegment` (src/src/libs/QrSegment.ts)
* `QrCode` (src/unnamed/part_002)
* `MyQrCode` (src/src/qr-generator/MyQrCode.ts)
JavaScript numbers are modelled as `Nat`/`Int` (all quantities handled by the
relevant code paths are integers far below 2^31, so JS arithmetic is exact);
strings as `List Char`; arrays as `List`; thrown `RangeError`s as
`Except String`.  `QrCodeUtil.assert` calls are internal-invariant checks
("never expected to trigger" per the library's own comments) and are not
modelled as failure points.
-/

/-- Error-correction level: `ordinal` in 0..3 and the 2-bit `formatBits`
(class `QrEcc`, src/unnamed/part_001). -/
structure QrEcc where
  ordinal : Nat
  formatBits : Nat
deriving DecidableEq

/-- The constant `QrEcc.LOW = new QrEcc(0, 1)`. -/
def QrEcc.LOW : QrEcc := ⟨0, 1⟩

/-- The constant `QrEcc.MEDIUM = new QrEcc(1, 0)`. -/
def QrEcc.MEDIUM : QrEcc := ⟨1, 0⟩

/-- The constant `QrEcc.QUARTILE = new QrEcc(2, 3)`. -/
def QrEcc.QUARTILE : QrEcc := ⟨2, 3⟩

/-- The constant `QrEcc.HIGH = new QrEcc(3, 2)`. -/
def QrEcc.HIGH : QrEcc := ⟨3, 2⟩

/-- The four error-correction levels of the library. -/
def eccLevels : List QrEcc := [QrEcc.LOW, QrEcc.MEDIUM, QrEcc.QUARTILE, QrEcc.HIGH]

/-- Mode descriptor: 4-bit mode indicator and the three character-count field
widths (class `QrMode`, src/src/libs/QrMode.ts).  The source stores the widths
as a 3-tuple; we store them as a list read with `getD`. -/
structure QrMode where
  modeBits : Nat
  numBitsCharCount : List Nat
deriving DecidableEq

/-- The constant `QrMode.NUMERIC = new QrMode(0x1, [10, 12, 14])`. -/
def QrMode.NUMERIC : QrMode := ⟨0x1, [10, 12, 14]⟩

/-- The constant `QrMode.ALPHANUMERIC = new QrMode(0x2, [9, 11, 13])`. -/
def QrMode.ALPHANUMERIC : QrMode := ⟨0x2, [9, 11, 13]⟩

/-- The constant `QrMode.BYTE = new QrMode(0x4, [8, 16, 16])`. -/
def QrMode.BYTE : QrMode := ⟨0x4, [8, 16, 16]⟩

/-- The constant `QrMode.KANJI = new QrMode(0x8, [8, 10, 12])`. -/
def QrMode.KANJI : QrMode := ⟨0x8, [8, 10, 12]⟩

/-- The constant `QrMode.ECI = new QrMode(0x7, [0, 0, 0])`. -/
def QrMode.ECI : QrMode := ⟨0x7, [0, 0, 0]⟩

/-- Method `QrMode.numCharCountBits(ver)`: returns
`numBitsCharCount[Math.floor((ver + 7) / 17)]`. -/
def QrMode.numCharCountBits (m : QrMode) (ver : Nat) : Nat :=
  m.numBitsCharCount.getD ((ver + 7) / 17) 0

/-- The sequence of `len` low-order bits of `val`, most significant first; this
is what the loop body of `QrCodeUtil.appendBits` pushes (bit `i` for
`i = len-1` down to `0`). -/
def lowBits (val len : Nat) : List Nat :=
  (List.range len).reverse.map (fun i => (val >>> i) &&& 1)

/-- Static `QrCodeUtil.appendBits(val, len, bb)` (src/src/libs/QrMode.ts):
appends the `len` low-order bits of `val` to `bb`, most significant first.
The source first throws a RangeError unless `0 ≤ len ≤ 31` and
`val >>> len == 0`; every call site modelled in this file satisfies that
precondition (4-bit mode indicators, guarded character counts, 0-valued
terminators, 8-bit pad bytes and range-checked ECI values), so the check is
not a reachable failure point and the function is modelled total. -/
def appendBits (val len : Nat) (bb : List Nat) : List Nat :=
  bb ++ lowBits val len

/-- Static `QrCodeUtil.getBit(x, i)`: true iff bit `i` of `x` is 1. -/
def getBit (x i : Nat) : Bool := ((x >>> i) &&& 1) != 0

/-- Segment: mode descriptor, character count and bit data (class `QrSegment`,
src/src/libs/QrSegment.ts).  The constructor's `numChars < 0` check cannot
fire for `Nat`, and the defensive copies are identities for pure lists. -/
structure QrSegment where
  mode : QrMode
  numChars : Nat
  bitData : List Nat
deriving DecidableEq

/-- Loop of `QrSegment.getTotalBits`: accumulator version; returns `none` for
the source's `Infinity` (a segment whose `numChars` does not fit in the
character-count field width). -/
def getTotalBitsAux (version : Nat) : List QrSegment → Nat → Option Nat
  | [], result => some result
  | seg :: rest, result =>
    let ccbits := seg.mode.numCharCountBits version
    if 2 ^ ccbits ≤ seg.numChars then none
    else getTotalBitsAux version rest (result + (4 + ccbits + seg.bitData.length))

/-- Static `QrSegment.getTotalBits(segs, version)`: total number of bits
needed to encode the segments at the given version, `none` meaning the
source's `Infinity`. -/
def getTotalBits (segs : List QrSegment) (version : Nat) : Option Nat :=
  getTotalBitsAux version segs 0

/-- Table `QrCode.ECC_CODEWORDS_PER_BLOCK` (src/unnamed/part_002), indexed
`[ecc.ordinal][version]`; index 0 of each row is the illegal sentinel -1. -/
def ECC_CODEWORDS_PER_BLOCK : List (List Int) := [
  [-1, 7, 10, 15, 20, 26, 18, 20, 24, 30, 18, 20, 24, 26, 30, 22, 24, 28, 30, 28, 28, 28, 28, 30, 30, 26, 28, 30, 30, 30, 30, 30, 30, 30, 30, 30, 30, 30, 30, 30, 30],
  [-1, 10, 16, 26, 18, 24, 16, 18, 22, 22, 26, 30, 22, 22, 24, 24, 28, 28, 26, 26, 26, 26, 28, 28, 28, 28, 28, 28, 28, 28, 28, 28, 28, 28, 28, 28, 28, 28, 28, 28, 28],
  [-1, 13, 22, 18, 26, 18, 24, 18, 22, 20, 24, 28, 26, 24, 20, 30, 24, 28, 28, 26, 30, 28, 30, 30, 30, 30, 28, 30, 30, 30, 30, 30, 30, 30, 30, 30, 30, 30, 30, 30, 30],
  [-1, 17, 28, 22, 16, 22, 28, 26, 26, 24, 28, 24, 28, 22, 24, 24, 30, 28, 28, 26, 28, 30, 24, 30, 30, 30, 30, 30, 30, 30, 30, 30, 30, 30, 30, 30, 30, 30, 30, 30, 30]]

/-- Table `QrCode.NUM_ERROR_CORRECTION_BLOCKS` (src/unnamed/part_002), indexed
`[ecc.ordinal][version]`; index 0 of each row is the illegal sentinel -1. -/
def NUM_ERROR_CORRECTION_BLOCKS : List (List Int) := [
  [-1, 1, 1, 1, 1, 1, 2, 2, 2, 2, 4, 4, 4, 4, 4, 6, 6, 6, 6, 7, 8, 8, 9, 9, 10, 12, 12, 12, 13, 14, 15, 16, 17, 18, 19, 19, 20, 21, 22, 24, 25],
  [-1, 1, 1, 1, 2, 2, 4, 4, 4, 5, 5, 5, 8, 9, 9, 10, 10, 11, 13, 14, 16, 17, 17, 18, 20, 21, 23, 25, 26, 28, 29, 31, 33, 35, 37, 38, 40, 43, 45, 47, 49],
  [-1, 1, 1, 2, 2, 4, 4, 6, 6, 8, 8, 8, 10, 12, 16, 12, 17, 16, 18, 21, 20, 23, 23, 25, 27, 29, 34, 34, 35, 38, 40, 43, 45, 48, 51, 53, 56, 59, 62, 65, 68],
  [-1, 1, 1, 2, 4, 4, 4, 5, 6, 8, 8, 11, 11, 16, 16, 18, 16, 19, 21, 25, 25, 25, 34, 30, 32, 35, 37, 40, 42, 45, 48, 51, 54, 57, 60, 63, 66, 70, 74, 77, 81]]

/-- Row lookup `ECC_CODEWORDS_PER_BLOCK[ecl.ordinal][ver]`. -/
def eccCodewordsPerBlock (ecl : QrEcc) (ver : Nat) : Int :=
  (ECC_CODEWORDS_PER_BLOCK.getD ecl.ordinal []).getD ver (-1)

/-- Row lookup `NUM_ERROR_CORRECTION_BLOCKS[ecl.ordinal][ver]`. -/
def numErrorCorrectionBlocks (ecl : QrEcc) (ver : Nat) : Int :=
  (NUM_ERROR_CORRECTION_BLOCKS.getD ecl.ordinal []).getD ver (-1)

/-- Static `QrCode.getNumRawDataModules(ver)` (src/unnamed/part_002 lines
509-521).  The leading range check (`ver < 1 || ver > 40` throws) guards
callers; every claim about this function restricts `ver` to `[1, 40]`, where
the function returns the closed-form value modelled here.  `Math.floor(ver/7)`
is `Nat` division since `ver ≥ 0`. -/
def getNumRawDataModules (ver : Nat) : Int :=
  let result : Int := (16 * (ver : Int) + 128) * (ver : Int) + 64
  if 2 ≤ ver then
    let numAlign : Int := (ver : Int) / 7 + 2
    let result := result - ((25 * numAlign - 10) * numAlign - 55)
    if 7 ≤ ver then result - 36 else result
  else result

/-- Static `QrCode.getNumDataCodewords(ver, ecl)` (src/unnamed/part_002 lines
527-531): `⌊raw/8⌋ − ECC_CODEWORDS_PER_BLOCK[ecl][ver] ·
NUM_ERROR_CORRECTION_BLOCKS[ecl][ver]`. -/
def getNumDataCodewords (ver : Nat) (ecl : QrEcc) : Int :=
  getNumRawDataModules ver / 8 -
    eccCodewordsPerBlock ecl ver * numErrorCorrectionBlocks ecl ver

/-- Whether the data for `segs` fits into version `version` at level `ecl`:
the loop-body test of `QrCode.encodeSegments` (src/unnamed/part_002 lines
53-55): `usedBits <= getNumDataCodewords(version, ecl) * 8`, where an
infinite `usedBits` (modelled `none`) fits nowhere. -/
def fitsVersion (segs : List QrSegment) (ecl : QrEcc) (version : Nat) : Bool :=
  match getTotalBits segs version with
  | some usedBits => decide ((usedBits : Int) ≤ getNumDataCodewords version ecl * 8)
  | none => false

/-- Version-search loop body of `QrCode.encodeSegments` (src/unnamed/part_002
lines 50-61), recursing on an explicit fuel counter so that the definition is
structurally recursive: starting at `version`, accept the first version whose
capacity admits the data; throw "Data too long" when the current version is
already `≥ maxVersion` and does not fit.  The fuel-exhausted branch returns
the same error and is unreachable for the fuel chosen in `findVersionFrom`. -/
def findVersionLoop (segs : List QrSegment) (ecl : QrEcc) (maxVersion : Nat) :
    Nat → Nat → Except String Nat
  | 0, _ => .error "Data too long"
  | fuel + 1, version =>
    if fitsVersion segs ecl version then .ok version
    else if maxVersion ≤ version then .error "Data too long"
    else findVersionLoop segs ecl maxVersion fuel (version + 1)

/-- Version-search loop of `QrCode.encodeSegments` starting at `version`;
the fuel `maxVersion + 1 - version` covers every iteration the JS `for`
loop can perform before its `throw`. -/
def findVersionFrom (segs : List QrSegment) (ecl : QrEcc) (maxVersion version : Nat) :
    Except String Nat :=
  findVersionLoop segs ecl maxVersion (maxVersion + 1 - version) version

/-- Characterisation of the version-search loop: from any start `≤ maxV` it
returns the least fitting version in `[start, maxV]`, or "Data too long" iff
there is none. -/
theorem findVersionLoop_spec (segs : List QrSegment) (ecl : QrEcc) (maxV : Nat) :
    ∀ fuel start, maxV + 1 - start = fuel → start ≤ maxV →
      ((findVersionLoop segs ecl maxV fuel start = .error "Data too long" ∨
          ∃ v, findVersionLoop segs ecl maxV fuel start = .ok v) ∧
        (∀ v, findVersionLoop segs ecl maxV fuel start = .ok v →
          start ≤ v ∧ v ≤ maxV ∧ fitsVersion segs ecl v = true ∧
          ∀ w, start ≤ w → w < v → fitsVersion segs ecl w = false) ∧
        (findVersionLoop segs ecl maxV fuel start = .error "Data too long" ↔
          ∀ w, start ≤ w → w ≤ maxV → fitsVersion segs ecl w = false)) := by
  intro fuel
  induction fuel with
  | zero =>
    intro start hn hle
    omega
  | succ n ih =>
    intro start hn hle
    by_cases hfit : fitsVersion segs ecl start = true
    · simp only [findVersionLoop, hfit, if_true]
      refine ⟨Or.inr ⟨start, rfl⟩, ?_, ?_⟩
      · intro v hv
        cases hv
        exact ⟨le_refl _, hle, hfit, fun w hw1 hw2 => absurd (lt_of_le_of_lt hw1 hw2) (lt_irrefl _)⟩
      · constructor
        · intro h
          cases h
        · intro hall
          have := hall start (le_refl _) hle
          rw [hfit] at this
          cases this
    · rcases Nat.eq_or_lt_of_le hle with rfl | hlt
      · simp only [Bool.not_eq_true] at hfit
        simp only [findVersionLoop, hfit, if_false, if_pos (le_refl start)]
        refine ⟨Or.inl rfl, ?_, ?_⟩
        · intro v hv
          cases hv
        · constructor
          · intro _ w hw1 hw2
            have : w = start := by omega
            subst this
            exact hfit
          · intro _
            rfl
      · simp only [Bool.not_eq_true] at hfit
        have hnle : ¬ maxV ≤ start := by omega
        simp only [findVersionLoop, hfit, if_false, hnle]
        obtain ⟨htot, hok, herr⟩ := ih (start + 1) (by omega) (by omega)
        refine ⟨htot, ?_, ?_⟩
        · intro v hv
          obtain ⟨h1, h2, h3, h4⟩ := hok v hv
          refine ⟨by omega, h2, h3, ?_⟩
          intro w hw1 hw2
          rcases Nat.eq_or_lt_of_le hw1 with rfl | hgt
          · exact hfit
          · exact h4 w (by omega) hw2
        · constructor
          · intro h w hw1 hw2
            rcases Nat.eq_or_lt_of_le hw1 with rfl | hgt
            · exact hfit
            · exact herr.mp h w (by omega) hw2
          · intro hall
            exact herr.mpr (fun w hw1 hw2 => hall w (by omega) hw2)

/-- C1: for every segment list, ECC level and version range
`1 ≤ minVer ≤ maxVer ≤ 40`, the version-search loop of `encodeSegments`
chooses the smallest version `v` in `[minVer, maxVer]` with
`getTotalBits(segs, v) ≤ 8·getNumDataCodewords(v, ecc0)` (predicate
`fitsVersion`), and throws a RangeError "Data too long" exactly when no
version in the range fits. -/
theorem encodeSegments_minimal_version (segs : List QrSegment) (ecl : QrEcc)
    (minV maxV : Nat) (h1 : 1 ≤ minV) (h2 : minV ≤ maxV) (h3 : maxV ≤ 40) :
    (findVersionFrom segs ecl maxV minV = .error "Data too long" ∨
      ∃ v, findVersionFrom segs ecl maxV minV = .ok v) ∧
    (∀ v, findVersionFrom segs ecl maxV minV = .ok v →
      minV ≤ v ∧ v ≤ maxV ∧ fitsVersion segs ecl v = true ∧
      ∀ w, minV ≤ w → w < v → fitsVersion segs ecl w = false) ∧
    (findVersionFrom segs ecl maxV minV = .error "Data too long" ↔
      ∀ w, minV ≤ w → w ≤ maxV → fitsVersion segs ecl w = false) :=
  findVersionLoop_spec segs ecl maxV (maxV + 1 - minV) minV rfl h2

/-- Witness for C1 at a concrete input: no segments, LOW level, range
`[1, 40]`. -/
theorem encodeSegments_minimal_version_witness :
    (findVersionFrom [] QrEcc.LOW 40 1 = .error "Data too long" ∨
      ∃ v, findVersionFrom [] QrEcc.LOW 40 1 = .ok v) ∧
    (∀ v, findVersionFrom [] QrEcc.LOW 40 1 = .ok v →
      1 ≤ v ∧ v ≤ 40 ∧ fitsVersion [] QrEcc.LOW v = true ∧
      ∀ w, 1 ≤ w → w < v → fitsVersion [] QrEcc.LOW w = false) ∧
    (findVersionFrom [] QrEcc.LOW 40 1 = .error "Data too long" ↔
      ∀ w, 1 ≤ w → w ≤ 40 → fitsVersion [] QrEcc.LOW w = false) :=
  encodeSegments_minimal_version [] QrEcc.LOW 1 40 (by decide) (by decide) (by decide)

/-- C7: for every version in [1,40], `getNumRawDataModules` equals the
closed form `(16v+128)v+64` minus the alignment deduction for `v ≥ 2` and a
further 36 for `v ≥ 7`, lies in `[208, 29648]`, and for every ECC level
`getNumDataCodewords = ⌊raw/8⌋ − eccPerBlock·numBlocks ≥ 0`. -/
theorem numRawDataModules_bounds (v : Nat) (h1 : 1 ≤ v) (h2 : v ≤ 40) :
    getNumRawDataModules v =
      (16 * (v : Int) + 128) * (v : Int) + 64
        - (if 2 ≤ v then (25 * ((v : Int) / 7 + 2) - 10) * ((v : Int) / 7 + 2) - 55 else 0)
        - (if 7 ≤ v then 36 else 0) ∧
    208 ≤ getNumRawDataModules v ∧ getNumRawDataModules v ≤ 29648 ∧
    ∀ ecl ∈ eccLevels,
      getNumDataCodewords v ecl =
        getNumRawDataModules v / 8 -
          eccCodewordsPerBlock ecl v * numErrorCorrectionBlocks ecl v ∧
      0 ≤ getNumDataCodewords v ecl := by
  revert h1
  have h : ∀ w, w < 41 → 1 ≤ w →
      (getNumRawDataModules w =
        (16 * (w : Int) + 128) * (w : Int) + 64
          - (if 2 ≤ w then (25 * ((w : Int) / 7 + 2) - 10) * ((w : Int) / 7 + 2) - 55 else 0)
          - (if 7 ≤ w then 36 else 0) ∧
      208 ≤ getNumRawDataModules w ∧ getNumRawDataModules w ≤ 29648 ∧
      ∀ ecl ∈ eccLevels,
        getNumDataCodewords w ecl =
          getNumRawDataModules w / 8 -
            eccCodewordsPerBlock ecl w * numErrorCorrectionBlocks ecl w ∧
        0 ≤ getNumDataCodewords w ecl) := by decide
  exact h v (by omega)

/-- Witness for C7 at version 7 (first version with the 36-module version-info
deduction). -/
theorem numRawDataModules_bounds_witness :
    208 ≤ getNumRawDataModules 7 ∧ getNumRawDataModules 7 ≤ 29648 :=
  ⟨(numRawDataModules_bounds 7 (by decide) (by decide)).2.1,
   (numRawDataModules_bounds 7 (by decide) (by decide)).2.2.1⟩

/-- Loop of `QrCode.encodeSegments` that boosts the error-correction level
(src/unnamed/part_002 lines 63-67): for newEcl in [MEDIUM, QUARTILE, HIGH],
adopt newEcl when `boostEcl && dataUsedBits <= getNumDataCodewords(version,
newEcl) * 8`. -/
def boostEclLoop (boostEcl : Bool) (version dataUsedBits : Nat) (ecl : QrEcc) : QrEcc :=
  [QrEcc.MEDIUM, QrEcc.QUARTILE, QrEcc.HIGH].foldl
    (fun e newEcl =>
      if boostEcl && decide ((dataUsedBits : Int) ≤ getNumDataCodewords version newEcl * 8)
      then newEcl else e) ecl

/-- Version/ECC selection phase of `QrCode.encodeSegments` (src/unnamed/
part_002 lines 41-67): argument validation, minimal-version search, then ECC
boosting.  `dataUsedBits` is the total bit count at the found version (the
search only accepts finite totals, so the `getD 0` default is never used). -/
def chooseVersionAndEcl (segs : List QrSegment) (ecl : QrEcc)
    (minVersion maxVersion : Nat) (mask : Int) (boostEcl : Bool) :
    Except String (Nat × QrEcc) :=
  if ¬(1 ≤ minVersion ∧ minVersion ≤ maxVersion ∧ maxVersion ≤ 40) ∨ mask < -1 ∨ 7 < mask then
    .error "Invalid value"
  else
    match findVersionFrom segs ecl maxVersion minVersion with
    | .error e => .error e
    | .ok version =>
      let dataUsedBits := (getTotalBits segs version).getD 0
      .ok (version, boostEclLoop boostEcl version dataUsedBits ecl)

/-- Guard of the boost loop for one candidate level: `dataUsedBits <=
getNumDataCodewords(version, newEcl) * 8`. -/
def boostFits (version dataUsedBits : Nat) (newEcl : QrEcc) : Bool :=
  decide ((dataUsedBits : Int) ≤ getNumDataCodewords version newEcl * 8)

/-- Unfolding of the boost loop with `boostEcl = true`: the last candidate in
[MEDIUM, QUARTILE, HIGH] that fits wins, else the requested level stays. -/
theorem boostEclLoop_true_eq (version dataUsedBits : Nat) (ecl : QrEcc) :
    boostEclLoop true version dataUsedBits ecl =
      (if boostFits version dataUsedBits QrEcc.HIGH then QrEcc.HIGH
       else if boostFits version dataUsedBits QrEcc.QUARTILE then QrEcc.QUARTILE
       else if boostFits version dataUsedBits QrEcc.MEDIUM then QrEcc.MEDIUM
       else ecl) := by
  simp only [boostEclLoop, boostFits, List.foldl, Bool.true_and]

/-- C3: with `boostEcl = true`, after the minimal version `v` is found for the
requested level `ecl`, the candidates MEDIUM, QUARTILE, HIGH are tried in
order, each adopted iff the used bits fit its capacity (the nested-if
characterisation below); the resulting level's ordinal is `≥ ecl.ordinal`, and
the chosen version is exactly the one the search found for `ecl` (boosting
does not change it). -/
theorem encodeSegments_boost_ecl (segs : List QrSegment) (ecl : QrEcc)
    (minV maxV : Nat) (mask : Int) (hecl : ecl ∈ eccLevels)
    (v : Nat) (e : QrEcc)
    (h : chooseVersionAndEcl segs ecl minV maxV mask true = .ok (v, e)) :
    findVersionFrom segs ecl maxV minV = .ok v ∧
    (∃ used, getTotalBits segs v = some used ∧
      e = (if boostFits v used QrEcc.HIGH then QrEcc.HIGH
           else if boostFits v used QrEcc.QUARTILE then QrEcc.QUARTILE
           else if boostFits v used QrEcc.MEDIUM then QrEcc.MEDIUM
           else ecl)) ∧
    ecl.ordinal ≤ e.ordinal := by
  rw [chooseVersionAndEcl] at h
  split at h
  · exact Except.noConfusion h
  · rename_i hvalid
    cases hfv : findVersionFrom segs ecl maxV minV with
    | error s =>
      rw [hfv] at h
      exact Except.noConfusion h
    | ok version =>
      rw [hfv] at h
      injection h with h
      injection h with h1 h2
      subst h1
      subst h2
      refine ⟨rfl, ?_⟩
      push_neg at hvalid
      obtain ⟨⟨hm1, hm2, hm3⟩, -⟩ := hvalid
      obtain ⟨-, -, hfit, -⟩ :=
        (findVersionLoop_spec segs ecl maxV (maxV + 1 - minV) minV rfl hm2).2.1 version hfv
      cases hg : getTotalBits segs version with
      | none =>
        simp only [fitsVersion, hg] at hfit
        exact Bool.noConfusion hfit
      | some used =>
        have hb : boostFits version used ecl = true := by
          simp only [fitsVersion, hg] at hfit
          exact hfit
        simp only [Option.getD_some]
        rw [boostEclLoop_true_eq]
        refine ⟨⟨used, rfl, rfl⟩, ?_⟩
        simp only [eccLevels, List.mem_cons, List.not_mem_nil, or_false] at hecl
        rcases hecl with rfl | rfl | rfl | rfl <;>
        · by_cases hH : boostFits version used QrEcc.HIGH <;>
            by_cases hQ : boostFits version used QrEcc.QUARTILE <;>
              by_cases hM : boostFits version used QrEcc.MEDIUM <;>
                simp_all [QrEcc.LOW, QrEcc.MEDIUM, QrEcc.QUARTILE, QrEcc.HIGH]

/-- Witness for C3 at a concrete input: empty segment list at QUARTILE in
range [1,40]; version 1 is chosen and the level boosts to HIGH. -/
theorem encodeSegments_boost_ecl_witness :
    findVersionFrom [] QrEcc.QUARTILE 40 1 = .ok 1 ∧
      QrEcc.QUARTILE.ordinal ≤ QrEcc.HIGH.ordinal := by
  have h : chooseVersionAndEcl [] QrEcc.QUARTILE 1 40 (-1) true = .ok (1, QrEcc.HIGH) := rfl
  exact ⟨(encodeSegments_boost_ecl [] QrEcc.QUARTILE 1 40 (-1) (by decide) 1 QrEcc.HIGH h).1,
    (encodeSegments_boost_ecl [] QrEcc.QUARTILE 1 40 (-1) (by decide) 1 QrEcc.HIGH h).2.2⟩

/-- Constructed QR symbol: version, error-correction level, `size = 4·version
+ 17`, final mask index and the module grid (class `QrCode`'s public fields,
src/unnamed/part_002). -/
structure QrCodeSym where
  version : Nat
  errorCorrectionLevel : QrEcc
  size : Nat
  mask : Nat
  modules : List (List Bool)
deriving DecidableEq

/-- Method `QrCode.getModule(x, y)` (src/unnamed/part_002 lines 188-190):
`0 <= x && x < size && 0 <= y && y < size && this.modules[y][x]`, so any
out-of-range coordinate short-circuits to `false` (light). -/
def QrCodeSym.getModule (q : QrCodeSym) (x y : Int) : Bool :=
  decide (0 ≤ x) && decide (x < q.size) && decide (0 ≤ y) && decide (y < q.size) &&
    (q.modules.getD y.toNat []).getD x.toNat false

/-- C8: `getModule` returns light (`false`) for every out-of-range coordinate
without failing, and the stored module colour for every in-range coordinate. -/
theorem getModule_out_of_range (q : QrCodeSym) (x y : Int) :
    ((x < 0 ∨ (q.size : Int) ≤ x ∨ y < 0 ∨ (q.size : Int) ≤ y) →
      q.getModule x y = false) ∧
    (0 ≤ x → x < q.size → 0 ≤ y → y < q.size →
      q.getModule x y = (q.modules.getD y.toNat []).getD x.toNat false) := by
  constructor
  · intro hout
    rcases hout with h | h | h | h
    · have hd : decide (0 ≤ x) = false := decide_eq_false (by omega)
      simp [QrCodeSym.getModule, hd]
    · have hd : decide (x < (q.size : Int)) = false := decide_eq_false (by omega)
      simp [QrCodeSym.getModule, hd]
    · have hd : decide (0 ≤ y) = false := decide_eq_false (by omega)
      simp [QrCodeSym.getModule, hd]
    · have hd : decide (y < (q.size : Int)) = false := decide_eq_false (by omega)
      simp [QrCodeSym.getModule, hd]
  · intro h1 h2 h3 h4
    simp [QrCodeSym.getModule, h1, h2, h3, h4]

/-- Witness for C8 on a concrete 1×1 grid holding a dark module: coordinate
(-1, 0) reads light, coordinate (0, 0) reads the stored colour. -/
theorem getModule_out_of_range_witness :
    (QrCodeSym.mk 1 QrEcc.LOW 1 0 [[true]]).getModule (-1) 0 = false ∧
      (QrCodeSym.mk 1 QrEcc.LOW 1 0 [[true]]).getModule 0 0 =
        (([[true]] : List (List Bool)).getD 0 []).getD 0 false :=
  ⟨(getModule_out_of_range (QrCodeSym.mk 1 QrEcc.LOW 1 0 [[true]]) (-1) 0).1
      (Or.inl (by decide)),
   (getModule_out_of_range (QrCodeSym.mk 1 QrEcc.LOW 1 0 [[true]]) 0 0).2
      (by decide) (by decide) (by decide) (by decide)⟩

/-- Stored encoding parameters of the facade class `MyQrCode`
(src/src/qr-generator/MyQrCode.ts). -/
structure MyQrCodeParams where
  qrEcc : QrEcc
  minVersion : Nat
  maxVersion : Nat
  mask : Int
  boostEcl : Bool
deriving DecidableEq

/-- Argument object of `MyQrCode.updateParam`; `none` models a field absent
(`undefined`) in the caller's object literal. -/
structure UpdateParamArgs where
  qrEcc : Option QrEcc
  minVersion : Option Nat
  maxVersion : Option Nat
  mask : Option Int
  boostEcl : Option Bool
deriving DecidableEq

/-- Method `MyQrCode.updateParam` (src/src/qr-generator/MyQrCode.ts lines
40-58).  TypeScript destructuring first replaces each absent field by the
declared default (`qrEcc = QrEcc.HIGH, minVersion = 1, maxVersion = 40,
mask = -1, boostEcl = true`); the subsequent `this.x = x ?? this.x`
assignments see a never-nullish `x`, so they assign `x` unconditionally. -/
def updateParam (st : MyQrCodeParams) (args : UpdateParamArgs) : MyQrCodeParams :=
  let qrEcc := args.qrEcc.getD QrEcc.HIGH
  let minVersion := args.minVersion.getD 1
  let maxVersion := args.maxVersion.getD 40
  let mask := args.mask.getD (-1)
  let boostEcl := args.boostEcl.getD true
  { st with
    qrEcc := qrEcc, minVersion := minVersion, maxVersion := maxVersion,
    mask := mask, boostEcl := boostEcl }

/-- C9 (code bug evaluated at the failing input): a `MyQrCode` whose stored
level is LOW, updated with an argument object that omits `qrEcc` (the one
optional field of the TypeScript signature), ends up with level HIGH — the
destructuring default — rather than keeping LOW as the claim requires; the
provided fields are assigned verbatim. -/
theorem updateParam_overwrites_missing_field :
    (updateParam ⟨QrEcc.LOW, 5, 10, 3, false⟩
        ⟨none, some 2, some 20, some 1, some false⟩) =
      ⟨QrEcc.HIGH, 2, 20, 1, false⟩ ∧
    QrEcc.HIGH ≠ QrEcc.LOW := by
  constructor
  · rfl
  · decide

/-- Numeric value of a most-significant-first bit list. -/
def bitsToNat (bits : List Nat) : Nat :=
  bits.foldl (fun acc b => 2 * acc + b) 0

/-- Peeling the most significant bit off `lowBits`. -/
theorem lowBits_succ (val len : Nat) :
    lowBits val (len + 1) = ((val >>> len) &&& 1) :: lowBits val len := by
  simp [lowBits, List.range_succ]

/-- Length of `lowBits`. -/
theorem length_lowBits (val len : Nat) : (lowBits val len).length = len := by
  simp [lowBits]

/-- Folding the binary-accumulation step over `lowBits val len` recovers
`val mod 2^len` on top of the shifted accumulator. -/
theorem foldl_lowBits (val : Nat) :
    ∀ len acc, (lowBits val len).foldl (fun a b => 2 * a + b) acc =
      acc * 2 ^ len + val % 2 ^ len := by
  intro len
  induction len with
  | zero =>
    intro acc
    simp [lowBits, Nat.mod_one]
  | succ len ih =>
    intro acc
    rw [lowBits_succ]
    simp only [List.foldl_cons]
    rw [ih, Nat.and_one_is_mod, Nat.shiftRight_eq_div_pow]
    have hsplit : val % 2 ^ (len + 1) = (val / 2 ^ len % 2) * 2 ^ len + val % 2 ^ len := by
      rw [pow_succ, Nat.mod_mul]
      ring_nf
    rw [hsplit]
    ring

/-- The bit list `lowBits val len` denotes `val` whenever `val < 2^len`. -/
theorem bitsToNat_lowBits (val len : Nat) (h : val < 2 ^ len) :
    bitsToNat (lowBits val len) = val := by
  rw [bitsToNat, foldl_lowBits]
  simp [Nat.mod_eq_of_lt h]

/-- Static `QrSegment.makeEci(assignVal)` (src/src/libs/QrSegment.ts lines
69-84).  The literals `128` and `16384` are the source's `1 << 7` and
`1 << 14`; the prefixes `2` and `6` are its `0b10` and `0b110`. -/
def makeEci (assignVal : Int) : Except String QrSegment :=
  if assignVal < 0 then .error "ECI assignment value out of range"
  else if assignVal < 128 then
    .ok ⟨QrMode.ECI, 0, appendBits assignVal.toNat 8 []⟩
  else if assignVal < 16384 then
    .ok ⟨QrMode.ECI, 0, appendBits assignVal.toNat 14 (appendBits 2 2 [])⟩
  else if assignVal < 1000000 then
    .ok ⟨QrMode.ECI, 0, appendBits assignVal.toNat 21 (appendBits 6 3 [])⟩
  else .error "ECI assignment value out of range"

/-- C6: `makeEci` rejects `v < 0` and `v ≥ 10^6` with a RangeError; for
`0 ≤ v < 128` it emits exactly 8 bits denoting `v`; for `128 ≤ v < 2^14`,
16 bits starting `1,0` whose remaining 14 bits denote `v`; for
`2^14 ≤ v < 10^6`, 24 bits starting `1,1,0` whose remaining 21 bits denote
`v`; every produced segment has mode ECI and `numChars = 0`. -/
theorem makeEci_spec (v : Int) :
    (v < 0 → makeEci v = .error "ECI assignment value out of range") ∧
    (0 ≤ v → v < 128 → ∃ seg, makeEci v = .ok seg ∧ seg.mode = QrMode.ECI ∧
      seg.numChars = 0 ∧ seg.bitData.length = 8 ∧
      (bitsToNat seg.bitData : Int) = v) ∧
    (128 ≤ v → v < 16384 → ∃ seg, makeEci v = .ok seg ∧ seg.mode = QrMode.ECI ∧
      seg.numChars = 0 ∧ seg.bitData.length = 16 ∧
      seg.bitData.take 2 = [1, 0] ∧
      (bitsToNat (seg.bitData.drop 2) : Int) = v) ∧
    (16384 ≤ v → v < 1000000 → ∃ seg, makeEci v = .ok seg ∧ seg.mode = QrMode.ECI ∧
      seg.numChars = 0 ∧ seg.bitData.length = 24 ∧
      seg.bitData.take 3 = [1, 1, 0] ∧
      (bitsToNat (seg.bitData.drop 3) : Int) = v) ∧
    (1000000 ≤ v → makeEci v = .error "ECI assignment value out of range") := by
  have h2 : lowBits 2 2 = [1, 0] := by decide
  have h6 : lowBits 6 3 = [1, 1, 0] := by decide
  refine ⟨fun hneg => ?_, fun h0 h1 => ?_, fun h0 h1 => ?_, fun h0 h1 => ?_, fun h0 => ?_⟩
  · rw [makeEci, if_pos hneg]
  · rw [makeEci, if_neg (by omega), if_pos h1]
    refine ⟨_, rfl, rfl, rfl, ?_, ?_⟩
    · simp [appendBits, length_lowBits]
    · have hlt : v.toNat < 2 ^ 8 := by omega
      simp only [appendBits, List.nil_append, bitsToNat_lowBits v.toNat 8 hlt]
      omega
  · rw [makeEci, if_neg (by omega), if_neg (by omega), if_pos h1]
    refine ⟨_, rfl, rfl, rfl, ?_, ?_, ?_⟩
    · simp [appendBits, length_lowBits]
    · simp [appendBits, h2]
    · have hlt : v.toNat < 2 ^ 14 := by omega
      have hdrop : (appendBits v.toNat 14 (appendBits 2 2 [])).drop 2 = lowBits v.toNat 14 := by
        simp [appendBits, h2]
      rw [hdrop, bitsToNat_lowBits v.toNat 14 hlt]
      omega
  · rw [makeEci, if_neg (by omega), if_neg (by omega), if_neg (by omega), if_pos h1]
    refine ⟨_, rfl, rfl, rfl, ?_, ?_, ?_⟩
    · simp [appendBits, length_lowBits]
    · simp [appendBits, h6]
    · have hlt : v.toNat < 2 ^ 21 := by omega
      have hdrop : (appendBits v.toNat 21 (appendBits 6 3 [])).drop 3 = lowBits v.toNat 21 := by
        simp [appendBits, h6]
      rw [hdrop, bitsToNat_lowBits v.toNat 21 hlt]
      omega
  · rw [makeEci, if_neg (by omega), if_neg (by omega), if_neg (by omega), if_neg (by omega)]

/-- Witness for C6 at the boundary value 127: one 8-bit field denoting 127. -/
theorem makeEci_spec_witness :
    ∃ seg, makeEci 127 = .ok seg ∧ seg.mode = QrMode.ECI ∧
      seg.numChars = 0 ∧ seg.bitData.length = 8 ∧
      (bitsToNat seg.bitData : Int) = 127 :=
  (makeEci_spec 127).2.1 (by decide) (by decide)

/-- Character class of regex `NUMERIC_REGEX = /^[0-9]*$/`
(src/src/libs/QrSegment.ts). -/
def isNumericChar (c : Char) : Bool := decide ('0' ≤ c) && decide (c ≤ '9')

/-- Static `QrSegment.isNumeric(text)`: the regex tests that every character
is a decimal digit. -/
def isNumeric (text : List Char) : Bool := text.all isNumericChar

/-- Character class of regex `ALPHANUMERIC_REGEX = /^[A-Z0-9 $%*+.\/:-]*$/`:
uppercase letters, digits, or one of space, dollar, percent, asterisk, plus,
period, slash, colon, hyphen. -/
def isAlphanumericChar (c : Char) : Bool :=
  (decide ('A' ≤ c) && decide (c ≤ 'Z')) || (decide ('0' ≤ c) && decide (c ≤ '9')) ||
    decide (c ∈ " $%*+./:-".toList)

/-- Static `QrSegment.isAlphanumeric(text)`: the regex tests that every
character is in the alphanumeric class. -/
def isAlphanumeric (text : List Char) : Bool := text.all isAlphanumericChar

/-- Constant `QrSegment.ALPHANUMERIC_CHARSET`; each character's value is its
index in this list. -/
def ALPHANUMERIC_CHARSET : List Char :=
  "0123456789ABCDEFGHIJKLMNOPQRSTUVWXYZ $%*+-./:".toList

/-- Every ASCII code admitted by the alphanumeric regex class denotes a
character of `ALPHANUMERIC_CHARSET` (checked over all codes below 128). -/
theorem alnum_class_mem_charset :
    ∀ n ∈ List.range 128,
      ((65 ≤ n ∧ n ≤ 90) ∨ (48 ≤ n ∧ n ≤ 57) ∨
        n ∈ [32, 36, 37, 42, 43, 46, 47, 58, 45]) →
      Char.ofNat n ∈ ALPHANUMERIC_CHARSET := by decide

/-- The regex class and the charset string describe the same characters. -/
theorem isAlphanumericChar_iff_mem (c : Char) :
    isAlphanumericChar c = true ↔ c ∈ ALPHANUMERIC_CHARSET := by
  constructor
  · intro h
    simp only [isAlphanumericChar, Bool.or_eq_true, Bool.and_eq_true,
      decide_eq_true_eq] at h
    have hofnat := Char.ofNat_toNat c
    rcases h with (⟨h1, h2⟩ | ⟨h1, h2⟩) | h3
    · have h2n : c.toNat ≤ 90 := h2
      have := alnum_class_mem_charset c.toNat (by simp only [List.mem_range]; omega)
        (Or.inl ⟨h1, h2⟩)
      rwa [hofnat] at this
    · have h2n : c.toNat ≤ 57 := h2
      have := alnum_class_mem_charset c.toNat (by simp only [List.mem_range]; omega)
        (Or.inr (Or.inl ⟨h1, h2⟩))
      rwa [hofnat] at this
    · have hfacts : ∀ d ∈ " $%*+./:-".toList,
          d.toNat ∈ [32, 36, 37, 42, 43, 46, 47, 58, 45] ∧ d.toNat < 128 := by decide
      obtain ⟨hin, hlt⟩ := hfacts c h3
      have := alnum_class_mem_charset c.toNat (by simp only [List.mem_range]; omega)
        (Or.inr (Or.inr hin))
      rwa [hofnat] at this
  · intro h
    exact (by decide : ∀ d ∈ ALPHANUMERIC_CHARSET, isAlphanumericChar d = true) c h

/-- A decimal digit is in the alphanumeric class. -/
theorem isNumericChar_alnum (c : Char) (h : isNumericChar c = true) :
    isAlphanumericChar c = true := by
  simp only [isNumericChar, Bool.and_eq_true] at h
  simp [isAlphanumericChar, h.1, h.2]

/-- Value of one decimal digit character (the effect of `parseInt` on it). -/
def digitVal (c : Char) : Nat := c.toNat - 48

/-- Value of `parseInt(digits, 10)` on a string of decimal digits. -/
def digitsToNat (ds : List Char) : Nat := ds.foldl (fun a c => a * 10 + digitVal c) 0

/-- Bit stream built by the loop of `QrSegment.makeNumeric` (src/src/libs/
QrSegment.ts lines 24-28): consume `n = min(remaining, 3)` digits per
iteration and append their value in `n*3 + 1` bits. -/
def makeNumericBits : List Char → List Nat
  | [] => []
  | a :: b :: c :: rest => appendBits (digitsToNat [a, b, c]) 10 [] ++ makeNumericBits rest
  | ds => appendBits (digitsToNat ds) (ds.length * 3 + 1) []

/-- Static `QrSegment.makeNumeric(digits)`. -/
def makeNumeric (digits : List Char) : Except String QrSegment :=
  if ¬ isNumeric digits then .error "String contains non-numeric characters"
  else .ok ⟨QrMode.NUMERIC, digits.length, makeNumericBits digits⟩

/-- Bit stream built by the loop of `QrSegment.makeAlphanumeric` (src/src/
libs/QrSegment.ts lines 39-47): pairs as `45·a + b` in 11 bits, a trailing
single character in 6 bits.  `indexOf` is the index in
`ALPHANUMERIC_CHARSET`. -/
def makeAlphanumericBits : List Char → List Nat
  | [] => []
  | [a] => appendBits (ALPHANUMERIC_CHARSET.indexOf a) 6 []
  | a :: b :: rest =>
    appendBits (ALPHANUMERIC_CHARSET.indexOf a * 45 + ALPHANUMERIC_CHARSET.indexOf b) 11 [] ++
      makeAlphanumericBits rest

/-- Static `QrSegment.makeAlphanumeric(text)`. -/
def makeAlphanumeric (text : List Char) : Except String QrSegment :=
  if ¬ isAlphanumeric text then
    .error "String contains unencodable characters in alphanumeric mode"
  else .ok ⟨QrMode.ALPHANUMERIC, text.length, makeAlphanumericBits text⟩

/-- Static `QrSegment.makeBytes(data)`: each byte appended as 8 bits,
`numChars` is the byte count. -/
def makeBytes (data : List Nat) : QrSegment :=
  ⟨QrMode.BYTE, data.length, data.foldl (fun bb b => appendBits b 8 bb) []⟩

/-- UTF-8 encoding of one scalar value.  The source's `toUtf8ByteArray`
percent-encodes via `encodeURI` and collects the escaped bytes, which yields
exactly the standard UTF-8 byte sequence of each code point (spec §4.3). -/
def utf8EncodeChar (c : Char) : List Nat :=
  let n := c.toNat
  if n < 0x80 then [n]
  else if n < 0x800 then
    [0xC0 ||| (n >>> 6), 0x80 ||| (n &&& 0x3F)]
  else if n < 0x10000 then
    [0xE0 ||| (n >>> 12), 0x80 ||| ((n >>> 6) &&& 0x3F), 0x80 ||| (n &&& 0x3F)]
  else
    [0xF0 ||| (n >>> 18), 0x80 ||| ((n >>> 12) &&& 0x3F),
      0x80 ||| ((n >>> 6) &&& 0x3F), 0x80 ||| (n &&& 0x3F)]

/-- Static `QrSegment.toUtf8ByteArray(str)`: the UTF-8 bytes of the string. -/
def toUtf8ByteArray (text : List Char) : List Nat := text.bind utf8EncodeChar

/-- Static `QrSegment.makeSegments(text)` (src/src/libs/QrSegment.ts lines
54-64).  Under each guard the corresponding factory (`makeNumeric`,
`makeAlphanumeric`) cannot throw, and returns exactly the segment written
here. -/
def makeSegments (text : List Char) : List QrSegment :=
  if text = [] then []
  else if isNumeric text then [⟨QrMode.NUMERIC, text.length, makeNumericBits text⟩]
  else if isAlphanumeric text then
    [⟨QrMode.ALPHANUMERIC, text.length, makeAlphanumericBits text⟩]
  else [makeBytes (toUtf8ByteArray text)]

/-- C5: `makeSegments` returns `[]` on the empty string; one NUMERIC segment
when every character is a decimal digit; otherwise one ALPHANUMERIC segment
when every character is in `ALPHANUMERIC_CHARSET`; otherwise one BYTE
segment over the UTF-8 encoding of the string. -/
theorem makeSegments_mode_selection (s : List Char) :
    (s = [] → makeSegments s = []) ∧
    (s ≠ [] → (∀ c ∈ s, isNumericChar c = true) →
      (makeSegments s).map QrSegment.mode = [QrMode.NUMERIC] ∧
      (makeSegments s).map QrSegment.numChars = [s.length]) ∧
    (s ≠ [] → ¬ (∀ c ∈ s, isNumericChar c = true) → (∀ c ∈ s, c ∈ ALPHANUMERIC_CHARSET) →
      (makeSegments s).map QrSegment.mode = [QrMode.ALPHANUMERIC] ∧
      (makeSegments s).map QrSegment.numChars = [s.length]) ∧
    (¬ (∀ c ∈ s, c ∈ ALPHANUMERIC_CHARSET) →
      makeSegments s = [makeBytes (toUtf8ByteArray s)] ∧
      (makeSegments s).map QrSegment.mode = [QrMode.BYTE]) := by
  refine ⟨fun hnil => by simp [makeSegments, hnil], fun hne hdig => ?_, fun hne hnd ha => ?_,
    fun hna => ?_⟩
  · have hnum : isNumeric s = true := by
      simp only [isNumeric, List.all_eq_true]
      exact hdig
    simp [makeSegments, hne, hnum]
  · have hnum : isNumeric s = false := by
      rcases Bool.eq_false_or_eq_true (isNumeric s) with h | h
      · simp only [isNumeric, List.all_eq_true] at h
        exact absurd h hnd
      · exact h
    have halnum : isAlphanumeric s = true := by
      simp only [isAlphanumeric, List.all_eq_true]
      exact fun c hc => (isAlphanumericChar_iff_mem c).mpr (ha c hc)
    simp [makeSegments, hne, hnum, halnum]
  · have hne : s ≠ [] := by
      intro hnil
      exact hna (by simp [hnil])
    have halnum : isAlphanumeric s = false := by
      rcases Bool.eq_false_or_eq_true (isAlphanumeric s) with h | h
      · simp only [isAlphanumeric, List.all_eq_true] at h
        exact absurd (fun c hc => (isAlphanumericChar_iff_mem c).mp (h c hc)) hna
      · exact h
    have hnum : isNumeric s = false := by
      rcases Bool.eq_false_or_eq_true (isNumeric s) with h | h
      · simp only [isNumeric, List.all_eq_true] at h
        exact absurd (fun c hc => (isAlphanumericChar_iff_mem c).mp
          (isNumericChar_alnum c (h c hc))) hna
      · exact h
    simp [makeSegments, hne, hnum, halnum, makeBytes]

/-- Witness for C5 on the concrete strings "12" (numeric branch) and "" (empty
branch). -/
theorem makeSegments_mode_selection_witness :
    ((makeSegments "12".toList).map QrSegment.mode = [QrMode.NUMERIC] ∧
      (makeSegments "12".toList).map QrSegment.numChars = ["12".toList.length]) ∧
    makeSegments [] = [] :=
  ⟨(makeSegments_mode_selection "12".toList).2.1 (by decide) (by decide),
   (makeSegments_mode_selection []).1 rfl⟩

/-- Reading a grid cell: `grid[y][x]`, with `false` (light) for missing
rows/cells, matching JS `undefined` coercion never being exercised in-range. -/
def gridGet (g : List (List Bool)) (x y : Nat) : Bool :=
  (g.getD y []).getD x false

/-- Mask predicate of `QrCode.applyMask` (src/unnamed/part_002 lines
393-403): `invert` for mask 0..7; the default branch (`throw "Unreachable"`)
cannot be selected because `applyMask` range-checks its argument first. -/
def maskPredicate (mask x y : Nat) : Bool :=
  match mask with
  | 0 => decide ((x + y) % 2 = 0)
  | 1 => decide (y % 2 = 0)
  | 2 => decide (x % 3 = 0)
  | 3 => decide ((x + y) % 3 = 0)
  | 4 => decide ((x / 3 + y / 2) % 2 = 0)
  | 5 => decide (x * y % 2 + x * y % 3 = 0)
  | 6 => decide ((x * y % 2 + x * y % 3) % 2 = 0)
  | 7 => decide (((x + y) % 2 + x * y % 3) % 2 = 0)
  | _ => false

/-- Method `QrCode.applyMask(mask)` (src/unnamed/part_002 lines 387-408):
for every `(x, y)` in the `size × size` grid, flip `modules[y][x]` iff the
module is not a function module and the mask predicate holds.  Each cell is
visited exactly once and never re-read, so the in-place JS double loop is the
index-wise map below.  The surrounding `0 ≤ mask ≤ 7` range check is handled
at the call sites (`applyMaskChecked` and the automatic-mask loop). -/
def applyMask (size mask : Nat) (isFunction modules : List (List Bool)) :
    List (List Bool) :=
  (List.range size).map (fun y =>
    (List.range size).map (fun x =>
      let m := gridGet modules x y
      if !(gridGet isFunction x y) && maskPredicate mask x y then !m else m))

/-- Reading back a doubly indexed range-map grid. -/
theorem gridGet_range_map (size : Nat) (f : Nat → Nat → Bool) (x y : Nat)
    (hx : x < size) (hy : y < size) :
    gridGet ((List.range size).map (fun y => (List.range size).map (fun x => f x y))) x y
      = f x y := by
  have hylen : y < ((List.range size).map
      (fun y => (List.range size).map (fun x => f x y))).length := by
    simpa using hy
  rw [gridGet, List.getD_eq_getElem _ _ hylen]
  simp only [List.getElem_map, List.getElem_range]
  have hxlen : x < ((List.range size).map (fun x => f x y)).length := by
    simpa using hx
  rw [List.getD_eq_getElem _ _ hxlen]
  simp only [List.getElem_map, List.getElem_range]

/-- Cell-wise description of one application of `applyMask`. -/
theorem gridGet_applyMask (size mask : Nat) (isF g : List (List Bool))
    (x y : Nat) (hx : x < size) (hy : y < size) :
    gridGet (applyMask size mask isF g) x y =
      (if !(gridGet isF x y) && maskPredicate mask x y then !(gridGet g x y)
       else gridGet g x y) := by
  rw [applyMask, gridGet_range_map size _ x y hx hy]

/-- C4: applying the same mask twice restores every module of a `size × size`
grid, and a single application flips exactly the non-function modules whose
coordinates satisfy the mask predicate, leaving all others unchanged. -/
theorem applyMask_involution (size m : Nat) (hm : m ≤ 7)
    (isF g : List (List Bool)) (hlen : g.length = size)
    (hrow : ∀ row ∈ g, row.length = size) :
    applyMask size m isF (applyMask size m isF g) = g ∧
    (∀ x y, x < size → y < size →
      gridGet (applyMask size m isF g) x y =
        (if gridGet isF x y = false ∧ maskPredicate m x y = true
         then !(gridGet g x y) else gridGet g x y)) := by
  constructor
  · apply List.ext_getElem
    · simp [applyMask, hlen]
    · intro y hy1 hy2
      have hy : y < size := by simpa [applyMask] using hy1
      apply List.ext_getElem
      · have := hrow (g[y]) (List.getElem_mem hy2)
        simp [applyMask, this]
      · intro x hx1 hx2
        have hx : x < size := by simpa [applyMask] using hx1
        have hb1 : gridGet (applyMask size m isF (applyMask size m isF g)) x y =
            (applyMask size m isF (applyMask size m isF g))[y][x] := by
          rw [gridGet, List.getD_eq_getElem _ _ hy1, List.getD_eq_getElem _ _ hx1]
        have hb2 : gridGet g x y = g[y][x] := by
          rw [gridGet, List.getD_eq_getElem _ _ hy2, List.getD_eq_getElem _ _ hx2]
        rw [← hb1, ← hb2]
        rw [gridGet_applyMask size m isF (applyMask size m isF g) x y hx hy,
          gridGet_applyMask size m isF g x y hx hy]
        cases hc : (!(gridGet isF x y) && maskPredicate m x y) <;> simp [hc]
  · intro x y hx hy
    rw [gridGet_applyMask size m isF g x y hx hy]
    cases hf : gridGet isF x y <;> cases hp : maskPredicate m x y <;> simp [hf, hp]

/-- Witness for C4 on a concrete 2×2 grid with one function module: masking
with mask 0 twice restores the grid, and one application flips exactly the
predicate's non-function cells. -/
theorem applyMask_involution_witness :
    applyMask 2 0 [[true, false], [false, false]]
        (applyMask 2 0 [[true, false], [false, false]] [[true, true], [false, true]]) =
      [[true, true], [false, true]] :=
  (applyMask_involution 2 0 (by decide) [[true, false], [false, false]]
    [[true, true], [false, true]] (by decide) (by decide)).1

/-- Static `QrCode.reedSolomonMultiply(x, y)` (src/unnamed/part_002 lines
578-589): Russian-peasant product in GF(2^8) mod 0x11D; the loop runs
`i = 7` down to `0` (here `i = 7 - k`).  The source's range check
(`x, y < 256`) holds at every call site; only the lengths of the
Reed-Solomon outputs matter to the claims below, so the function is
modelled total. -/
def reedSolomonMultiply (x y : Nat) : Nat :=
  (List.range 8).foldl (fun z k =>
    let z2 := (z <<< 1) ^^^ ((z >>> 7) * 0x11D)
    z2 ^^^ (((y >>> (7 - k)) &&& 1) * x)) 0

/-- One pass of the inner loop of `reedSolomonComputeDivisor` (multiply the
product polynomial by `(x − r^i)`): `result[j] := mult(result[j], root)`,
then XOR in the old `result[j+1]` when it exists (the in-place JS loop reads
`result[j+1]` before updating it). -/
def rsDivStep (root : Nat) (result : List Nat) : List Nat :=
  (List.range result.length).map (fun j =>
    let v := reedSolomonMultiply (result.getD j 0) root
    if j + 1 < result.length then v ^^^ result.getD (j + 1) 0 else v)

/-- Static `QrCode.reedSolomonComputeDivisor(degree)` (src/unnamed/part_002
lines 536-560): start from `degree−1` zeros and a trailing 1, then multiply
by `(x − r^i)` for `i < degree`, squaring the root each pass.  The source's
`1 ≤ degree ≤ 255` check holds at every call site (`blockEccLen ∈ [7, 30]`). -/
def reedSolomonComputeDivisor (degree : Nat) : List Nat :=
  let init : List Nat := List.replicate (degree - 1) 0 ++ [1]
  ((List.range degree).foldl
    (fun p _ => (rsDivStep p.2 p.1, reedSolomonMultiply p.2 2))
    ((init, 1) : List Nat × Nat)).1

/-- One division step of `reedSolomonComputeRemainder` for data byte `b`:
`factor = b XOR result.shift()`, push 0, then XOR `mult(divisor[i], factor)`
into every coefficient. -/
def rsRemStep (divisor result : List Nat) (b : Nat) : List Nat :=
  let factor := b ^^^ result.headD 0
  let shifted := result.tail ++ [0]
  (List.range divisor.length).map (fun i =>
    shifted.getD i 0 ^^^ reedSolomonMultiply (divisor.getD i 0) factor)

/-- Static `QrCode.reedSolomonComputeRemainder(data, divisor)`
(src/unnamed/part_002 lines 564-573). -/
def reedSolomonComputeRemainder (data divisor : List Nat) : List Nat :=
  data.foldl (rsRemStep divisor) (divisor.map (fun _ => 0))

/-- Constructor-local `numBlocks = NUM_ERROR_CORRECTION_BLOCKS[ecl][ver]` of
`addEccAndnumbererleave` as a `Nat` (the table entry is positive for
versions 1..40). -/
def numBlocksN (ver : Nat) (ecl : QrEcc) : Nat := (numErrorCorrectionBlocks ecl ver).toNat

/-- Constructor-local `blockEccLen = ECC_CODEWORDS_PER_BLOCK[ecl][ver]` as a
`Nat`. -/
def blockEccLenN (ver : Nat) (ecl : QrEcc) : Nat := (eccCodewordsPerBlock ecl ver).toNat

/-- Constructor-local `rawCodewords = Math.floor(getNumRawDataModules(ver) /
8)` as a `Nat`. -/
def rawCodewordsN (ver : Nat) : Nat := (getNumRawDataModules ver / 8).toNat

/-- Constructor-local `numShortBlocks = numBlocks − rawCodewords %
numBlocks`. -/
def numShortBlocksN (ver : Nat) (ecl : QrEcc) : Nat :=
  numBlocksN ver ecl - rawCodewordsN ver % numBlocksN ver ecl

/-- Constructor-local `shortBlockLen = Math.floor(rawCodewords /
numBlocks)`. -/
def shortBlockLenN (ver : Nat) (ecl : QrEcc) : Nat :=
  rawCodewordsN ver / numBlocksN ver ecl

/-- Total number of data bytes consumed by blocks `i, i+1, …, i+n-1` of the
block-building loop (`shortDataLen` is `shortBlockLen − blockEccLen`; block
`t` takes one extra byte iff `t ≥ numShortBlocks`). -/
def blocksDataNeeded (numShortBlocks shortDataLen : Nat) : Nat → Nat → Nat
  | _, 0 => 0
  | i, n + 1 => (shortDataLen + if i < numShortBlocks then 0 else 1) +
      blocksDataNeeded numShortBlocks shortDataLen (i + 1) n

/-- Block-building loop of `addEccAndnumbererleave` (src/unnamed/part_002
lines 329-338): block `i` slices `shortDataLen (+1 for long blocks)` data
bytes (`k` advances by the slice's length, so slicing is the take/drop
consumption below), computes its Reed-Solomon remainder, pads short blocks
with one 0 byte, and stores `dat ++ ecc`. -/
def buildBlocks (rsDiv : List Nat) (numShortBlocks shortDataLen : Nat) :
    Nat → Nat → List Nat → List (List Nat)
  | _, 0, _ => []
  | i, n + 1, data =>
    let len := shortDataLen + if i < numShortBlocks then 0 else 1
    let dat := data.take len
    let ecc := reedSolomonComputeRemainder dat rsDiv
    let dat2 := if i < numShortBlocks then dat ++ [0] else dat
    (dat2 ++ ecc) :: buildBlocks rsDiv numShortBlocks shortDataLen (i + 1) n (data.drop len)

/-- Interleaving loop of `addEccAndnumbererleave` (src/unnamed/part_002 lines
341-348): for `i` below the (uniform) block length and each block `j`, emit
`blocks[j][i]` unless `(i, j)` is the padding position of a short block
(`i = shortBlockLen − blockEccLen` and `j < numShortBlocks`). -/
def interleaveBlocks (numShortBlocks shortDataLen : Nat)
    (blocks : List (List Nat)) : List Nat :=
  (List.range (blocks.headD []).length).flatMap (fun i =>
    (List.range blocks.length).filterMap (fun j =>
      if i ≠ shortDataLen ∨ numShortBlocks ≤ j then
        some ((blocks.getD j []).getD i 0)
      else none))

/-- Method `QrCode.addEccAndnumbererleave(data)` (src/unnamed/part_002 lines
315-351; the method name is the source's own spelling): length-check the
data codewords, split into blocks with Reed-Solomon parity, interleave.  The
final `result.length == rawCodewords` assert is an internal invariant (it is
the content of the length theorem below). -/
def addEccAndnumbererleave (ver : Nat) (ecl : QrEcc) (data : List Nat) :
    Except String (List Nat) :=
  if (data.length : Int) ≠ getNumDataCodewords ver ecl then .error "Invalid argument"
  else
    let rsDiv := reedSolomonComputeDivisor (blockEccLenN ver ecl)
    let blocks := buildBlocks rsDiv (numShortBlocksN ver ecl)
      (shortBlockLenN ver ecl - blockEccLenN ver ecl) 0 (numBlocksN ver ecl) data
    .ok (interleaveBlocks (numShortBlocksN ver ecl)
      (shortBlockLenN ver ecl - blockEccLenN ver ecl) blocks)

set_option maxHeartbeats 1000000 in
/-- Arithmetic facts about the block parameters, checked over all versions
1..40 and the four levels: at least one block, positive ECC length per block,
short blocks are long enough, the blocks consume exactly the data codewords,
the interleaved length is `rawCodewords`, and the two `Int`-to-`Nat`
conversions are faithful. -/
theorem blockParams_facts : ∀ v, v < 41 → 1 ≤ v → ∀ ecl ∈ eccLevels,
    1 ≤ numBlocksN v ecl ∧
    1 ≤ blockEccLenN v ecl ∧
    blockEccLenN v ecl ≤ shortBlockLenN v ecl ∧
    numShortBlocksN v ecl ≤ numBlocksN v ecl ∧
    blocksDataNeeded (numShortBlocksN v ecl)
      (shortBlockLenN v ecl - blockEccLenN v ecl) 0 (numBlocksN v ecl) =
      (getNumDataCodewords v ecl).toNat ∧
    (shortBlockLenN v ecl + 1) * numBlocksN v ecl - numShortBlocksN v ecl =
      rawCodewordsN v ∧
    ((getNumDataCodewords v ecl).toNat : Int) = getNumDataCodewords v ecl ∧
    ((rawCodewordsN v : Int) = getNumRawDataModules v / 8) := by decide

/-- A fold whose step preserves a predicate preserves it over any list. -/
theorem foldl_invariant {α σ : Type} (P : σ → Prop) (f : σ → α → σ)
    (h : ∀ s a, P s → P (f s a)) : ∀ (l : List α) (s : σ), P s → P (l.foldl f s) := by
  intro l
  induction l with
  | nil => intro s hs; exact hs
  | cons a t ih => intro s hs; exact ih (f s a) (h s a hs)

/-- Division steps keep the running remainder at the divisor's length. -/
theorem length_rsRemStep (divisor result : List Nat) (b : Nat) :
    (rsRemStep divisor result b).length = divisor.length := by
  simp [rsRemStep]

/-- The Reed-Solomon remainder has the divisor's length. -/
theorem length_reedSolomonComputeRemainder (data divisor : List Nat) :
    (reedSolomonComputeRemainder data divisor).length = divisor.length := by
  rw [reedSolomonComputeRemainder]
  exact foldl_invariant (fun l => l.length = divisor.length) _
    (fun s a _ => length_rsRemStep divisor s a) data (divisor.map (fun _ => 0)) (by simp)

/-- The generator polynomial of degree `d ≥ 1` has `d` coefficients. -/
theorem length_reedSolomonComputeDivisor (degree : Nat) (h : 1 ≤ degree) :
    (reedSolomonComputeDivisor degree).length = degree := by
  rw [reedSolomonComputeDivisor]
  have := foldl_invariant (fun p : List Nat × Nat => p.1.length = degree)
    (fun p _ => (rsDivStep p.2 p.1, reedSolomonMultiply p.2 2))
    (fun s a hs => by simpa [rsDivStep] using hs)
    (List.range degree) (List.replicate (degree - 1) 0 ++ [1], 1)
    (by simp; omega)
  exact this

/-- Every block built by the block loop has length `shortDataLen + 1 +
rsDiv.length`, and there are exactly `n` of them, provided the data holds the
bytes the loop consumes. -/
theorem buildBlocks_spec (rsDiv : List Nat) (numShortBlocks shortDataLen : Nat) :
    ∀ n i data, blocksDataNeeded numShortBlocks shortDataLen i n ≤ data.length →
      (buildBlocks rsDiv numShortBlocks shortDataLen i n data).length = n ∧
      ∀ b ∈ buildBlocks rsDiv numShortBlocks shortDataLen i n data,
        b.length = shortDataLen + 1 + rsDiv.length := by
  intro n
  induction n with
  | zero =>
    intro i data hle
    exact ⟨rfl, by intro b hb; cases hb⟩
  | succ n ih =>
    intro i data hle
    rw [blocksDataNeeded] at hle
    have hlen : shortDataLen + (if i < numShortBlocks then 0 else 1) ≤ data.length := by
      omega
    have hdrop : blocksDataNeeded numShortBlocks shortDataLen (i + 1) n ≤
        (data.drop (shortDataLen + if i < numShortBlocks then 0 else 1)).length := by
      rw [List.length_drop]
      omega
    obtain ⟨ihl, ihb⟩ := ih (i + 1) _ hdrop
    constructor
    · simp only [buildBlocks, List.length_cons, ihl]
    · intro b hb
      simp only [buildBlocks, List.mem_cons] at hb
      rcases hb with rfl | hb
      · by_cases hi : i < numShortBlocks
        · simp only [if_pos hi] at hlen ⊢
          rw [List.length_append, List.length_append, List.length_take,
            length_reedSolomonComputeRemainder]
          simp only [List.length_cons, List.length_nil]
          omega
        · simp only [if_neg hi] at hlen ⊢
          rw [List.length_append, List.length_take, length_reedSolomonComputeRemainder]
          omega
      · exact ihb b hb

/-- Count of indices `j < n` with `ns ≤ j` surviving a filterMap. -/
theorem length_filterMap_skip (g : Nat → Nat) (ns : Nat) : ∀ n,
    ((List.range n).filterMap (fun j => if ns ≤ j then some (g j) else none)).length =
      n - ns := by
  intro n
  induction n with
  | zero => simp
  | succ n ih =>
    rw [List.range_succ, List.filterMap_append, List.length_append, ih]
    by_cases h : ns ≤ n
    · simp only [List.filterMap_cons, List.filterMap_nil, if_pos h]
      simp only [List.length_cons, List.length_nil]
      omega
    · simp only [List.filterMap_cons, List.filterMap_nil, if_neg h]
      simp only [List.length_nil]
      omega

/-- Length of one interleaving pass at bit position `i`: all blocks
contribute except, at the padding position, the short ones. -/
theorem interleave_row_length (blocks : List (List Nat)) (ns sdl i : Nat) :
    ((List.range blocks.length).filterMap (fun j =>
      if i ≠ sdl ∨ ns ≤ j then some ((blocks.getD j []).getD i 0) else none)).length =
    (if i = sdl then blocks.length - ns else blocks.length) := by
  by_cases hi : i = sdl
  · rw [if_pos hi]
    have hcongr : ∀ j ∈ List.range blocks.length,
        (if i ≠ sdl ∨ ns ≤ j then some ((blocks.getD j []).getD i 0) else none) =
        (if ns ≤ j then some ((blocks.getD j []).getD i 0) else none) := by
      intro j _
      by_cases hj : ns ≤ j
      · rw [if_pos (Or.inr hj), if_pos hj]
      · rw [if_neg (by simp [hi, hj]), if_neg hj]
    rw [List.filterMap_congr hcongr]
    exact length_filterMap_skip _ ns blocks.length
  · rw [if_neg hi]
    have hcongr : ∀ j ∈ List.range blocks.length,
        (if i ≠ sdl ∨ ns ≤ j then some ((blocks.getD j []).getD i 0) else none) =
        some ((blocks.getD j []).getD i 0) := by
      intro j _
      rw [if_pos (Or.inl hi)]
    rw [List.filterMap_congr hcongr]
    rw [show (fun j => some ((blocks.getD j []).getD i 0)) =
      (some ∘ fun j => (blocks.getD j []).getD i 0) from rfl]
    rw [List.filterMap_eq_map]
    simp

/-- Sum of the per-position interleave lengths over `L` positions containing
the single padding position. -/
theorem sum_interleave_lengths (n ns sdl : Nat) (hns : ns ≤ n) : ∀ L, sdl < L →
    ((List.range L).map (fun i => if i = sdl then n - ns else n)).sum = L * n - ns := by
  intro L
  induction L with
  | zero => omega
  | succ L ih =>
    intro hlt
    rw [List.range_succ, List.map_append, List.sum_append]
    simp only [List.map_cons, List.map_nil, List.sum_cons, List.sum_nil]
    by_cases h : sdl < L
    · rw [ih h, if_neg (by omega)]
      have hmul : (L + 1) * n = L * n + n := by ring
      have hge : n ≤ L * n := Nat.le_mul_of_pos_left n (by omega)
      omega
    · have hL : sdl = L := by omega
      subst hL
      rw [if_pos rfl]
      have hconst : ((List.range sdl).map (fun i => if i = sdl then n - ns else n)) =
          (List.range sdl).map (fun _ => n) := by
        apply List.map_congr_left
        intro i hi
        rw [List.mem_range] at hi
        rw [if_neg (by omega)]
      rw [hconst]
      have hsum : ((List.range sdl).map (fun _ => n)).sum = sdl * n := by
        rw [List.map_const', List.sum_replicate, smul_eq_mul, List.length_range]
      rw [hsum]
      have hmul : (sdl + 1) * n = sdl * n + n := by ring
      omega

/-- Length of the interleaved codeword sequence when all blocks share length
`L` and the padding position lies below `L`. -/
theorem length_interleaveBlocks (ns sdl : Nat) (blocks : List (List Nat)) (L : Nat)
    (hne : blocks ≠ []) (hall : ∀ b ∈ blocks, b.length = L) (hsdl : sdl < L)
    (hns : ns ≤ blocks.length) :
    (interleaveBlocks ns sdl blocks).length = L * blocks.length - ns := by
  rw [interleaveBlocks]
  have hhead : (blocks.headD []).length = L := by
    cases blocks with
    | nil => exact absurd rfl hne
    | cons b t => exact hall b (List.mem_cons_self b t)
  rw [hhead, List.length_flatMap]
  have hrows : ((List.range L).map (fun i =>
      ((List.range blocks.length).filterMap (fun j =>
        if i ≠ sdl ∨ ns ≤ j then some ((blocks.getD j []).getD i 0) else none)).length)) =
      (List.range L).map (fun i => if i = sdl then blocks.length - ns else blocks.length) := by
    apply List.map_congr_left
    intro i _
    exact interleave_row_length blocks ns sdl i
  simp only [Function.comp_def]
  rw [hrows]
  exact sum_interleave_lengths blocks.length ns sdl hns L hsdl


/-- When the data has exactly `getNumDataCodewords` bytes,
`addEccAndnumbererleave` succeeds and returns `⌊rawModules/8⌋` bytes. -/
theorem addEccAndnumbererleave_length (ver : Nat) (ecl : QrEcc)
    (hv1 : 1 ≤ ver) (hv2 : ver ≤ 40) (hecl : ecl ∈ eccLevels)
    (data : List Nat) (hlen : (data.length : Int) = getNumDataCodewords ver ecl) :
    ∃ res, addEccAndnumbererleave ver ecl data = .ok res ∧
      (res.length : Int) = getNumRawDataModules ver / 8 := by
  obtain ⟨hb1, he1, hesl, hnsb, hneed, hinter, hcast, hraw⟩ :=
    blockParams_facts ver (by omega) hv1 ecl hecl
  have hlenN : data.length = (getNumDataCodewords ver ecl).toNat := by omega
  have hdivlen : (reedSolomonComputeDivisor (blockEccLenN ver ecl)).length =
      blockEccLenN ver ecl := length_reedSolomonComputeDivisor _ he1
  obtain ⟨hblen, hball⟩ := buildBlocks_spec (reedSolomonComputeDivisor (blockEccLenN ver ecl))
    (numShortBlocksN ver ecl) (shortBlockLenN ver ecl - blockEccLenN ver ecl)
    (numBlocksN ver ecl) 0 data (by rw [hneed, hlenN])
  have hL : ∀ b ∈ buildBlocks (reedSolomonComputeDivisor (blockEccLenN ver ecl))
      (numShortBlocksN ver ecl) (shortBlockLenN ver ecl - blockEccLenN ver ecl)
      0 (numBlocksN ver ecl) data, b.length = shortBlockLenN ver ecl + 1 := by
    intro b hb
    rw [hball b hb, hdivlen]
    omega
  have hne : buildBlocks (reedSolomonComputeDivisor (blockEccLenN ver ecl))
      (numShortBlocksN ver ecl) (shortBlockLenN ver ecl - blockEccLenN ver ecl)
      0 (numBlocksN ver ecl) data ≠ [] := by
    intro hnil
    rw [hnil] at hblen
    simp only [List.length_nil] at hblen
    omega
  have hilen := length_interleaveBlocks (numShortBlocksN ver ecl)
    (shortBlockLenN ver ecl - blockEccLenN ver ecl) _ (shortBlockLenN ver ecl + 1)
    hne hL (by omega) (by rw [hblen]; exact hnsb)
  refine ⟨interleaveBlocks (numShortBlocksN ver ecl)
      (shortBlockLenN ver ecl - blockEccLenN ver ecl)
      (buildBlocks (reedSolomonComputeDivisor (blockEccLenN ver ecl))
        (numShortBlocksN ver ecl) (shortBlockLenN ver ecl - blockEccLenN ver ecl)
        0 (numBlocksN ver ecl) data), ?_, ?_⟩
  · rw [addEccAndnumbererleave, if_neg (by omega)]
  · rw [hilen, hblen]
    omega

/-- Byte-padding loop of `QrCode.encodeSegments` (src/unnamed/part_002 lines
87-88), recursing on a fuel counter so the definition is structural: while
the buffer is shorter than the capacity, append 8 bits of the pad byte and
toggle it between 0xEC and 0x11.  Each pass grows the buffer by 8 bits, so
fuel `dataCapacityBits` always outlasts the JS `while` loop. -/
def padLoop (dataCapacityBits : Nat) : Nat → Nat → List Nat → List Nat
  | 0, _, bb => bb
  | fuel + 1, padByte, bb =>
    if bb.length < dataCapacityBits then
      padLoop dataCapacityBits fuel (padByte ^^^ (0xEC ^^^ 0x11)) (appendBits padByte 8 bb)
    else bb

/-- Bit-to-byte packing of `QrCode.encodeSegments` (src/unnamed/part_002
lines 91-95): big-endian, `dataCodewords[i >>> 3] |= b << (7 - (i & 7))`
over a zero array of `⌈bits/8⌉` bytes. -/
def bitsToBytes (bb : List Nat) : List Nat :=
  bb.enum.foldl
    (fun cw p => cw.set (p.1 / 8) ((cw.getD (p.1 / 8) 0) ||| (p.2 <<< (7 - p.1 % 8))))
    (List.replicate ((bb.length + 7) / 8) 0)

/-- Segment-concatenation loop of `QrCode.encodeSegments` (src/unnamed/
part_002 lines 70-76): per segment append the 4 mode-indicator bits, the
character count in `numCharCountBits(version)` bits, and the payload bits. -/
def concatSegments (segs : List QrSegment) (version : Nat) : List Nat :=
  segs.foldl (fun bb seg =>
    let bb1 := appendBits seg.mode.modeBits 4 bb
    let bb2 := appendBits seg.numChars (seg.mode.numCharCountBits version) bb1
    bb2 ++ seg.bitData) []

/-- Terminator, byte alignment and byte padding of `QrCode.encodeSegments`
(src/unnamed/part_002 lines 79-88): append `min(4, capacity − length)` zero
bits, align to a byte boundary with zero bits, then pad with alternating
0xEC/0x11 bytes up to capacity. -/
def appendTerminatorAndPad (dataCapacityBits : Nat) (bb : List Nat) : List Nat :=
  let bb3 := appendBits 0 (min 4 (dataCapacityBits - bb.length)) bb
  let bb4 := appendBits 0 ((8 - bb3.length % 8) % 8) bb3
  padLoop dataCapacityBits dataCapacityBits 0xEC bb4

/-- Data-codeword assembly of `QrCode.encodeSegments` (src/unnamed/part_002
lines 69-95): concatenate, terminate, pad, pack into bytes.  The
`dataCapacityBits − bb.length` subtraction is a `Nat` subtraction here; the
fit condition established by the version search makes it equal to the JS
difference on every reachable input. -/
def buildCodewords (segs : List QrSegment) (version : Nat) (ecl : QrEcc) : List Nat :=
  bitsToBytes (appendTerminatorAndPad (getNumDataCodewords version ecl * 8).toNat
    (concatSegments segs version))

/-- Length of the segment-concatenation fold. -/
theorem concatSegments_length_aux (version : Nat) : ∀ (segs : List QrSegment) (bb : List Nat),
    (segs.foldl (fun bb seg =>
      let bb1 := appendBits seg.mode.modeBits 4 bb
      let bb2 := appendBits seg.numChars (seg.mode.numCharCountBits version) bb1
      bb2 ++ seg.bitData) bb).length =
    bb.length + (segs.map (fun seg =>
      4 + seg.mode.numCharCountBits version + seg.bitData.length)).sum := by
  intro segs
  induction segs with
  | nil => intro bb; simp
  | cons seg rest ih =>
    intro bb
    simp only [List.foldl_cons, List.map_cons, List.sum_cons]
    rw [ih]
    simp [appendBits, length_lowBits]
    ring

/-- A finite `getTotalBits` value is the sum of the per-segment bit counts. -/
theorem getTotalBitsAux_eq_sum (version : Nat) : ∀ (segs : List QrSegment) (acc used : Nat),
    getTotalBitsAux version segs acc = some used →
    used = acc + (segs.map (fun seg =>
      4 + seg.mode.numCharCountBits version + seg.bitData.length)).sum := by
  intro segs
  induction segs with
  | nil =>
    intro acc used h
    injection h with h
    simp [h]
  | cons seg rest ih =>
    intro acc used h
    rw [getTotalBitsAux] at h
    split at h
    · exact Option.noConfusion h
    · have := ih _ used h
      simp only [List.map_cons, List.sum_cons]
      omega

/-- The concatenated bit buffer has exactly `getTotalBits` bits when that
total is finite. -/
theorem concatSegments_length (segs : List QrSegment) (version used : Nat)
    (h : getTotalBits segs version = some used) :
    (concatSegments segs version).length = used := by
  rw [concatSegments, concatSegments_length_aux]
  rw [getTotalBitsAux_eq_sum version segs 0 used h]
  simp

/-- The padding loop fills the buffer exactly to capacity when buffer and
capacity are byte-aligned and the fuel suffices. -/
theorem padLoop_length (cap : Nat) : ∀ fuel padByte (bb : List Nat),
    bb.length % 8 = 0 → cap % 8 = 0 → bb.length ≤ cap → cap ≤ bb.length + 8 * fuel →
    (padLoop cap fuel padByte bb).length = cap := by
  intro fuel
  induction fuel with
  | zero =>
    intro padByte bb h1 h2 h3 h4
    rw [padLoop]
    omega
  | succ fuel ih =>
    intro padByte bb h1 h2 h3 h4
    rw [padLoop]
    by_cases hlt : bb.length < cap
    · rw [if_pos hlt]
      have hlen : (appendBits padByte 8 bb).length = bb.length + 8 := by
        simp [appendBits, length_lowBits]
      rw [ih _ (appendBits padByte 8 bb) (by omega) h2 (by omega) (by omega)]
    · rw [if_neg hlt]
      omega

/-- Terminator plus padding fills a byte-aligned capacity exactly, given the
data fits. -/
theorem appendTerminatorAndPad_length (cap : Nat) (bb : List Nat)
    (h1 : bb.length ≤ cap) (h2 : cap % 8 = 0) :
    (appendTerminatorAndPad cap bb).length = cap := by
  simp only [appendTerminatorAndPad]
  have hb3 : (appendBits 0 (min 4 (cap - bb.length)) bb).length =
      bb.length + min 4 (cap - bb.length) := by
    simp [appendBits, length_lowBits]
  have hb4 : (appendBits 0
      ((8 - (appendBits 0 (min 4 (cap - bb.length)) bb).length % 8) % 8)
      (appendBits 0 (min 4 (cap - bb.length)) bb)).length =
      bb.length + min 4 (cap - bb.length) +
        (8 - (bb.length + min 4 (cap - bb.length)) % 8) % 8 := by
    simp [appendBits, length_lowBits, List.length_append, hb3]
    omega
  exact padLoop_length cap cap 0xEC _ (by omega) h2 (by omega) (by omega)

/-- Packing bits yields `⌈bits/8⌉` bytes. -/
theorem length_bitsToBytes (bb : List Nat) :
    (bitsToBytes bb).length = (bb.length + 7) / 8 := by
  rw [bitsToBytes]
  exact foldl_invariant (fun l : List Nat => l.length = (bb.length + 7) / 8) _
    (fun s p hs => by simp only [List.length_set]; exact hs) bb.enum _ (by simp)

/-- The assembled data codewords have exactly `getNumDataCodewords` bytes
whenever the segments fit the chosen version and level. -/
theorem buildCodewords_length (segs : List QrSegment) (version : Nat) (ecl : QrEcc)
    (used : Nat) (h1 : getTotalBits segs version = some used)
    (h2 : (used : Int) ≤ getNumDataCodewords version ecl * 8)
    (h3 : 0 ≤ getNumDataCodewords version ecl) :
    ((buildCodewords segs version ecl).length : Int) = getNumDataCodewords version ecl := by
  have hbb := concatSegments_length segs version used h1
  have hcap8 : (getNumDataCodewords version ecl * 8).toNat % 8 = 0 := by omega
  have hfits : (concatSegments segs version).length ≤
      (getNumDataCodewords version ecl * 8).toNat := by omega
  rw [buildCodewords, length_bitsToBytes,
    appendTerminatorAndPad_length _ _ hfits hcap8]
  omega

/-- C2: for every segment list that fits at version `v` and level `ecl`
(`fitsVersion`), assembling the data codewords (concatenate, terminate, pad,
pack) and adding ECC with interleaving succeeds and yields a codeword stream
of exactly `⌊getNumRawDataModules(v)/8⌋` bytes. -/
theorem codeword_stream_length (segs : List QrSegment) (v : Nat) (ecl : QrEcc)
    (h1 : 1 ≤ v) (h2 : v ≤ 40) (hecl : ecl ∈ eccLevels)
    (hfit : fitsVersion segs ecl v = true) :
    ∃ res, addEccAndnumbererleave v ecl (buildCodewords segs v ecl) = .ok res ∧
      (res.length : Int) = getNumRawDataModules v / 8 := by
  obtain ⟨-, -, -, -, -, -, hcast, -⟩ := blockParams_facts v (by omega) h1 ecl hecl
  have h3 : 0 ≤ getNumDataCodewords v ecl := by omega
  cases hg : getTotalBits segs v with
  | none =>
    rw [fitsVersion, hg] at hfit
    exact Bool.noConfusion hfit
  | some used =>
    rw [fitsVersion, hg] at hfit
    have hle : (used : Int) ≤ getNumDataCodewords v ecl * 8 := of_decide_eq_true hfit
    exact addEccAndnumbererleave_length v ecl h1 h2 hecl _
      (buildCodewords_length segs v ecl used hg hle h3)

/-- Witness for C2 at a concrete input: no segments, version 1, level LOW. -/
theorem codeword_stream_length_witness :
    ∃ res, addEccAndnumbererleave 1 QrEcc.LOW (buildCodewords [] 1 QrEcc.LOW) = .ok res ∧
      (res.length : Int) = getNumRawDataModules 1 / 8 :=
  codeword_stream_length [] 1 QrEcc.LOW (by decide) (by decide) (by decide) (by decide)

/-- Writing a grid cell: `grid[y][x] = b` (no-op out of range, which never
happens at the modelled call sites). -/
def gridSet (g : List (List Bool)) (x y : Nat) (b : Bool) : List (List Bool) :=
  g.set y ((g.getD y []).set x b)

/-- The two grids the `QrCode` constructor mutates: `modules` (colours) and
`isFunction` (function-module markers). -/
structure QrGrids where
  modules : List (List Bool)
  isFunction : List (List Bool)
deriving DecidableEq

/-- Method `QrCode.setFunctionModule(x, y, isDark)` (src/unnamed/part_002
lines 305-308). -/
def setFunctionModule (g : QrGrids) (x y : Nat) (isDark : Bool) : QrGrids :=
  ⟨gridSet g.modules x y isDark, gridSet g.isFunction x y true⟩

/-- Method `QrCode.drawFinderPattern(x, y)` (src/unnamed/part_002 lines
280-290): 9×9 square around `(x, y)`, dark iff the Chebyshev distance from
the centre is neither 2 nor 4, clipped to the grid (`dx = dx9 − 4`). -/
def drawFinderPattern (size : Nat) (x y : Int) (g : QrGrids) : QrGrids :=
  (List.range 9).foldl (fun g dy9 =>
    (List.range 9).foldl (fun g dx9 =>
      let dx : Int := (dx9 : Int) - 4
      let dy : Int := (dy9 : Int) - 4
      let dist := max dx.natAbs dy.natAbs
      let xx := x + dx
      let yy := y + dy
      if 0 ≤ xx ∧ xx < (size : Int) ∧ 0 ≤ yy ∧ yy < (size : Int) then
        setFunctionModule g xx.toNat yy.toNat (decide (dist ≠ 2) && decide (dist ≠ 4))
      else g) g) g

/-- Method `QrCode.drawAlignmentPattern(x, y)` (src/unnamed/part_002 lines
295-300): 5×5 square, dark iff the Chebyshev distance from the centre is not
1 (`dx = dx5 − 2`); all writes are in bounds at the call sites. -/
def drawAlignmentPattern (x y : Int) (g : QrGrids) : QrGrids :=
  (List.range 5).foldl (fun g dy5 =>
    (List.range 5).foldl (fun g dx5 =>
      let dx : Int := (dx5 : Int) - 2
      let dy : Int := (dy5 : Int) - 2
      setFunctionModule g (x + dx).toNat (y + dy).toNat
        (decide (max dx.natAbs dy.natAbs ≠ 1))) g) g

/-- Method `QrCode.drawFormatBits(mask)` (src/unnamed/part_002 lines
227-251): BCH-protect `(formatBits << 3 | mask)` with generator 0x537, XOR
with 0x5412, and draw the two copies plus the always-dark module. -/
def drawFormatBits (size : Nat) (ecl : QrEcc) (mask : Nat) (g : QrGrids) : QrGrids :=
  let data := ecl.formatBits <<< 3 ||| mask
  let rem := (List.range 10).foldl (fun rem _ => (rem <<< 1) ^^^ ((rem >>> 9) * 0x537)) data
  let bits := (data <<< 10 ||| rem) ^^^ 0x5412
  let g := (List.range 6).foldl (fun g i => setFunctionModule g 8 i (getBit bits i)) g
  let g := setFunctionModule g 8 7 (getBit bits 6)
  let g := setFunctionModule g 8 8 (getBit bits 7)
  let g := setFunctionModule g 7 8 (getBit bits 8)
  let g := (List.range 6).foldl (fun g k =>
    setFunctionModule g (14 - (k + 9)) 8 (getBit bits (k + 9))) g
  let g := (List.range 8).foldl (fun g i =>
    setFunctionModule g (size - 1 - i) 8 (getBit bits i)) g
  let g := (List.range 7).foldl (fun g k =>
    setFunctionModule g 8 (size - 15 + (k + 8)) (getBit bits (k + 8))) g
  setFunctionModule g 8 (size - 8) true

/-- Method `QrCode.drawVersion()` (src/unnamed/part_002 lines 256-275): for
version ≥ 7, BCH-protect the version number with generator 0x1F25 and draw
the two transposed 3×6 blocks. -/
def drawVersion (version size : Nat) (g : QrGrids) : QrGrids :=
  if version < 7 then g
  else
    let rem := (List.range 12).foldl
      (fun rem _ => (rem <<< 1) ^^^ ((rem >>> 11) * 0x1F25)) version
    let bits := version <<< 12 ||| rem
    (List.range 18).foldl (fun g i =>
      let color := getBit bits i
      let a := size - 11 + i % 3
      let b := i / 3
      let g := setFunctionModule g a b color
      setFunctionModule g b a color) g

/-- Insertion loop of `getAlignmentPatternPositions`: `result.splice(1, 0,
pos)` inserts each new (smaller) position at index 1, stepping `pos` down;
the loop runs until `result.length = numAlign`, i.e. exactly
`numAlign − 1` times. -/
def alignInsertLoop : Nat → Int → Int → List Int → List Int
  | 0, _, _, result => result
  | n + 1, pos, step, result =>
    alignInsertLoop n (pos - step) step (result.take 1 ++ [pos] ++ result.drop 1)

/-- Method `QrCode.getAlignmentPatternPositions()` (src/unnamed/part_002
lines 491-503).  `Math.ceil((4v+4)/(2·numAlign−2))` is the rounded-up `Nat`
division. -/
def getAlignmentPatternPositions (version : Nat) : List Int :=
  if version = 1 then []
  else
    let numAlign := version / 7 + 2
    let size := version * 4 + 17
    let step : Int := if version = 32 then 26
      else (((version * 4 + 4 + (numAlign * 2 - 2) - 1) / (numAlign * 2 - 2)) * 2 : Nat)
    alignInsertLoop (numAlign - 1) ((size : Int) - 7) step [6]

/-- Method `QrCode.drawFunctionPatterns()` (src/unnamed/part_002 lines
196-222): timing patterns, three finder patterns, alignment patterns
(skipping the three finder corners), dummy format bits and version bits. -/
def drawFunctionPatterns (version size : Nat) (ecl : QrEcc) (g : QrGrids) : QrGrids :=
  let g := (List.range size).foldl (fun g i =>
    let g := setFunctionModule g 6 i (decide (i % 2 = 0))
    setFunctionModule g i 6 (decide (i % 2 = 0))) g
  let g := drawFinderPattern size 3 3 g
  let g := drawFinderPattern size ((size : Int) - 4) 3 g
  let g := drawFinderPattern size 3 ((size : Int) - 4) g
  let alignPatPos := getAlignmentPatternPositions version
  let numAlign := alignPatPos.length
  let g := (List.range numAlign).foldl (fun g i =>
    (List.range numAlign).foldl (fun g j =>
      if (i = 0 ∧ j = 0) ∨ (i = 0 ∧ j = numAlign - 1) ∨ (i = numAlign - 1 ∧ j = 0) then g
      else drawAlignmentPattern (alignPatPos.getD i 0) (alignPatPos.getD j 0) g) g) g
  let g := drawFormatBits size ecl 0 g
  drawVersion version size g

/-- Sequence of `right` column indices visited by the zig-zag scan of
`drawCodewords` (src/unnamed/part_002 line 361): from `size − 1` down by 2,
replacing 6 by 5 (the timing column is skipped). -/
def zigzagRights (right : Nat) : List Nat :=
  if right < 1 then []
  else
    let r := if right = 6 then 5 else right
    r :: zigzagRights (r - 2)
termination_by right
decreasing_by
  split <;> omega

/-- Zig-zag body of `QrCode.drawCodewords(data)` (src/unnamed/part_002 lines
359-377), threading the bit counter `i`: place bit `i` of the codeword
stream at every non-function module while bits remain. -/
def drawCodewordsLoop (size : Nat) (data : List Nat) (g : QrGrids) : QrGrids × Nat :=
  (zigzagRights (size - 1)).foldl (fun gi right =>
    (List.range size).foldl (fun gi vert =>
      (List.range 2).foldl (fun (gi : QrGrids × Nat) j =>
        let x := right - j
        let upward := ((right + 1) &&& 2) = 0
        let y := if upward then size - 1 - vert else vert
        if ¬(gridGet gi.1.isFunction x y) = true ∧ gi.2 < data.length * 8 then
          (⟨gridSet gi.1.modules x y
              (getBit (data.getD (gi.2 >>> 3) 0) (7 - (gi.2 &&& 7))), gi.1.isFunction⟩,
            gi.2 + 1)
        else gi) gi) gi) (g, 0)

/-- Method `QrCode.drawCodewords(data)` (src/unnamed/part_002 lines 356-379):
length check, then the zig-zag placement; the final
`i == data.length * 8` assert is an internal invariant. -/
def drawCodewords (size version : Nat) (data : List Nat) (g : QrGrids) :
    Except String QrGrids :=
  if (data.length : Int) ≠ getNumRawDataModules version / 8 then .error "Invalid argument"
  else .ok (drawCodewordsLoop size data g).1

/-- Constant `QrCode.PENALTY_N1 = 3`. -/
def PENALTY_N1 : Nat := 3

/-- Constant `QrCode.PENALTY_N2 = 3`. -/
def PENALTY_N2 : Nat := 3

/-- Constant `QrCode.PENALTY_N3 = 40`. -/
def PENALTY_N3 : Nat := 40

/-- Constant `QrCode.PENALTY_N4 = 10`. -/
def PENALTY_N4 : Nat := 10

/-- Method `QrCode.finderPenaltyAddHistory` (src/unnamed/part_002 lines
616-621): add the light border to the initial run, drop the last history
slot and push the run length at the front. -/
def finderPenaltyAddHistory (size currentRunLength : Nat) (runHistory : List Nat) :
    List Nat :=
  (if runHistory.getD 0 0 = 0 then currentRunLength + size else currentRunLength) ::
    runHistory.dropLast

/-- Method `QrCode.finderPenaltyCountPatterns` (src/unnamed/part_002 lines
594-600): 0, 1 or 2 finder-like patterns read off the run history. -/
def finderPenaltyCountPatterns (runHistory : List Nat) : Nat :=
  let n := runHistory.getD 1 0
  let core := decide (0 < n) && decide (runHistory.getD 2 0 = n) &&
    decide (runHistory.getD 3 0 = n * 3) && decide (runHistory.getD 4 0 = n) &&
    decide (runHistory.getD 5 0 = n)
  (if core && decide (n * 4 ≤ runHistory.getD 0 0) && decide (n ≤ runHistory.getD 6 0)
    then 1 else 0) +
  (if core && decide (n * 4 ≤ runHistory.getD 6 0) && decide (n ≤ runHistory.getD 0 0)
    then 1 else 0)

/-- Method `QrCode.finderPenaltyTerminateAndCount` (src/unnamed/part_002
lines 604-612): close a dark run if needed, add the light border to the
final run, and count patterns. -/
def finderPenaltyTerminateAndCount (size : Nat) (currentRunColor : Bool)
    (currentRunLength : Nat) (runHistory : List Nat) : Nat :=
  let p : Nat × List Nat :=
    if currentRunColor then (0, finderPenaltyAddHistory size currentRunLength runHistory)
    else (currentRunLength, runHistory)
  finderPenaltyCountPatterns (finderPenaltyAddHistory size (p.1 + size) p.2)

/-- Body of the per-line loops of `QrCode.getPenaltyScore` (src/unnamed/
part_002 lines 421-435): state is (run colour, run length, run history,
accumulated result). -/
def penaltyLineStep (size : Nat) (st : Bool × Nat × List Nat × Nat) (cell : Bool) :
    Bool × Nat × List Nat × Nat :=
  let runColor := st.1
  let runLen := st.2.1
  let runHistory := st.2.2.1
  let result := st.2.2.2
  if cell == runColor then
    let runLen := runLen + 1
    let result := if runLen = 5 then result + PENALTY_N1
      else if 5 < runLen then result + 1 else result
    (runColor, runLen, runHistory, result)
  else
    let runHistory := finderPenaltyAddHistory size runLen runHistory
    let result := if !runColor then
        result + finderPenaltyCountPatterns runHistory * PENALTY_N3
      else result
    (cell, 1, runHistory, result)

/-- Penalty contribution of one line (row or column) of modules, including
the line-terminating pattern count (src/unnamed/part_002 lines 417-437). -/
def penaltyLine (size : Nat) (line : List Bool) : Nat :=
  let st := line.foldl (penaltyLineStep size) (false, 0, [0, 0, 0, 0, 0, 0, 0], 0)
  st.2.2.2 + finderPenaltyTerminateAndCount size st.1 st.2.1 st.2.2.1 * PENALTY_N3

/-- Balance term of `getPenaltyScore` (src/unnamed/part_002 lines 477-480):
`k = ⌈|20·dark − 10·total| / total⌉ − 1`, with the rounded-up division
written out on naturals. -/
def penaltyBalanceK (dark total : Nat) : Nat :=
  (((20 * dark : Int) - (10 * total : Int)).natAbs + total - 1) / total - 1

/-- Method `QrCode.getPenaltyScore()` (src/unnamed/part_002 lines 413-483):
row runs, column runs, 2×2 blocks and dark/light balance.  The two final
asserts (`k ≤ 9`, result bound) are internal invariants. -/
def getPenaltyScore (size : Nat) (modules : List (List Bool)) : Nat :=
  let rows := (List.range size).map (fun y =>
    (List.range size).map (fun x => gridGet modules x y))
  let cols := (List.range size).map (fun x =>
    (List.range size).map (fun y => gridGet modules x y))
  let r1 := (rows.map (penaltyLine size)).sum
  let r2 := (cols.map (penaltyLine size)).sum
  let r3 := ((List.range (size - 1)).map (fun y =>
    ((List.range (size - 1)).map (fun x =>
      if (gridGet modules x y == gridGet modules (x + 1) y) &&
          (gridGet modules x y == gridGet modules x (y + 1)) &&
          (gridGet modules x y == gridGet modules (x + 1) (y + 1))
      then PENALTY_N2 else 0)).sum)).sum
  let dark := modules.foldl (fun d row =>
    row.foldl (fun s c => s + if c then 1 else 0) d) 0
  let total := size * size
  r1 + r2 + r3 + penaltyBalanceK dark total * PENALTY_N4

/-- Range-checked `applyMask` call of the constructor (src/unnamed/part_002
lines 388-389): mask values outside 0..7 (including the never-replaced −1 of
automatic masking) throw. -/
def applyMaskChecked (size : Nat) (mask : Int) (isFunction modules : List (List Bool)) :
    Except String (List (List Bool)) :=
  if mask < 0 ∨ 7 < mask then .error "Mask value out of range"
  else .ok (applyMask size mask.toNat isFunction modules)

/-- One pass of the automatic mask search (src/unnamed/part_002 lines
161-172): apply mask `i`, draw its format bits, score, keep the best, and
re-apply mask `i` to undo it (the format bits stay, exactly as in the
source). -/
def autoMaskStep (size : Nat) (ecl : QrEcc) (st : QrGrids × Int × Nat) (i : Nat) :
    QrGrids × Int × Nat :=
  let g := st.1
  let g1 : QrGrids := ⟨applyMask size i g.isFunction g.modules, g.isFunction⟩
  let g2 := drawFormatBits size ecl i g1
  let penalty := getPenaltyScore size g2.modules
  let best : Int × Nat :=
    if penalty < st.2.2 then ((i : Int), penalty) else (st.2.1, st.2.2)
  (⟨applyMask size i g2.isFunction g2.modules, g2.isFunction⟩, best.1, best.2)

/-- Fresh all-light `size × size` module and function grids (src/unnamed/
part_002 lines 146-153). -/
def initialGrids (size : Nat) : QrGrids :=
  ⟨List.replicate size (List.replicate size false),
   List.replicate size (List.replicate size false)⟩

/-- The low-level `QrCode` constructor (src/unnamed/part_002 lines 127-180):
validate the scalars, draw the function patterns, add ECC and interleave,
draw the codewords, choose the mask (automatically for `msk = −1`, with
starting best penalty 10^9), apply it and draw its format bits.  The
`0 ≤ msk ≤ 7` assert before the final masking is an internal invariant; the
`applyMask` range check that follows it is modelled by `applyMaskChecked`. -/
def mkQrCode (version : Nat) (ecl : QrEcc) (dataCodewords : List Nat) (msk : Int) :
    Except String QrCodeSym :=
  if version < 1 ∨ 40 < version then .error "Version value out of range"
  else if msk < -1 ∨ 7 < msk then .error "Mask value out of range"
  else
    let size := version * 4 + 17
    let g := drawFunctionPatterns version size ecl (initialGrids size)
    match addEccAndnumbererleave version ecl dataCodewords with
    | .error e => .error e
    | .ok allCodewords =>
      match drawCodewords size version allCodewords g with
      | .error e => .error e
      | .ok g =>
        let st : QrGrids × Int × Nat :=
          if msk = -1 then
            (List.range 8).foldl (autoMaskStep size ecl) (g, msk, 1000000000)
          else (g, msk, 1000000000)
        match applyMaskChecked size st.2.1 st.1.isFunction st.1.modules with
        | .error e => .error e
        | .ok modules =>
          let final := drawFormatBits size ecl st.2.1.toNat ⟨modules, st.1.isFunction⟩
          .ok ⟨version, ecl, size, st.2.1.toNat, final.modules⟩

/-- A grid is `size × size`. -/
def GridShape (size : Nat) (g : List (List Bool)) : Prop :=
  g.length = size ∧ ∀ row ∈ g, row.length = size

/-- Both constructor grids are `size × size`. -/
def QrGridsShape (size : Nat) (g : QrGrids) : Prop :=
  GridShape size g.modules ∧ GridShape size g.isFunction

/-- Out-of-range `getD` returns the default. -/
theorem getD_of_length_le {α : Type} (l : List α) (d : α) (n : Nat) (h : l.length ≤ n) :
    l.getD n d = d := by
  rw [List.getD_eq_getElem?_getD]
  simp [List.getElem?_eq_none h]

/-- `gridSet` preserves the grid shape. -/
theorem gridShape_gridSet (size : Nat) (g : List (List Bool)) (x y : Nat) (b : Bool)
    (h : GridShape size g) : GridShape size (gridSet g x y b) := by
  obtain ⟨hlen, hrow⟩ := h
  by_cases hy : y < g.length
  · refine ⟨by simp [gridSet, hlen], ?_⟩
    intro row hr
    rcases List.mem_or_eq_of_mem_set hr with hmem | rfl
    · exact hrow row hmem
    · rw [List.length_set, List.getD_eq_getElem _ _ hy]
      exact hrow _ (List.getElem_mem hy)
  · rw [gridSet, List.set_eq_of_length_le (by omega)]
    exact ⟨hlen, hrow⟩

/-- `setFunctionModule` preserves the shapes of both grids. -/
theorem shape_setFunctionModule (size : Nat) (g : QrGrids) (x y : Nat) (b : Bool)
    (h : QrGridsShape size g) : QrGridsShape size (setFunctionModule g x y b) :=
  ⟨gridShape_gridSet size g.modules x y b h.1, gridShape_gridSet size g.isFunction x y true h.2⟩

/-- A fold of steps preserving a predicate on list members preserves it. -/
theorem foldl_invariant_mem {α σ : Type} (P : σ → Prop) (f : σ → α → σ) :
    ∀ (l : List α), (∀ s a, a ∈ l → P s → P (f s a)) → ∀ s, P s → P (l.foldl f s) := by
  intro l
  induction l with
  | nil => intro _ s hs; exact hs
  | cons a t ih =>
    intro h s hs
    exact ih (fun s b hb hsb => h s b (List.mem_cons_of_mem a hb) hsb) (f s a)
      (h s a (List.mem_cons_self a t) hs)

/-- `applyMask` always returns a `size × size` grid. -/
theorem gridShape_applyMask (size mask : Nat) (isF g : List (List Bool)) :
    GridShape size (applyMask size mask isF g) := by
  constructor
  · simp [applyMask]
  · intro row hr
    simp only [applyMask, List.mem_map] at hr
    obtain ⟨y, -, rfl⟩ := hr
    simp

/-- `drawFinderPattern` preserves the grid shapes. -/
theorem shape_drawFinderPattern (size : Nat) (x y : Int) (g : QrGrids)
    (h : QrGridsShape size g) : QrGridsShape size (drawFinderPattern size x y g) := by
  refine foldl_invariant (QrGridsShape size) _ (fun s a hs => ?_) _ _ h
  refine foldl_invariant (QrGridsShape size) _ (fun s2 a2 hs2 => ?_) _ _ hs
  simp only []
  split
  · exact shape_setFunctionModule _ _ _ _ _ hs2
  · exact hs2

/-- `drawAlignmentPattern` preserves the grid shapes. -/
theorem shape_drawAlignmentPattern (x y : Int) (size : Nat) (g : QrGrids)
    (h : QrGridsShape size g) : QrGridsShape size (drawAlignmentPattern x y g) := by
  refine foldl_invariant (QrGridsShape size) _ (fun s a hs => ?_) _ _ h
  exact foldl_invariant (QrGridsShape size) _
    (fun s2 a2 hs2 => shape_setFunctionModule _ _ _ _ _ hs2) _ _ hs

/-- `drawFormatBits` preserves the grid shapes. -/
theorem shape_drawFormatBits (size : Nat) (ecl : QrEcc) (mask : Nat) (g : QrGrids)
    (h : QrGridsShape size g) : QrGridsShape size (drawFormatBits size ecl mask g) := by
  simp only [drawFormatBits]
  apply shape_setFunctionModule
  apply foldl_invariant (QrGridsShape size) _
    (fun s a hs => shape_setFunctionModule _ _ _ _ _ hs)
  apply foldl_invariant (QrGridsShape size) _
    (fun s a hs => shape_setFunctionModule _ _ _ _ _ hs)
  apply foldl_invariant (QrGridsShape size) _
    (fun s a hs => shape_setFunctionModule _ _ _ _ _ hs)
  apply shape_setFunctionModule
  apply shape_setFunctionModule
  apply shape_setFunctionModule
  apply foldl_invariant (QrGridsShape size) _
    (fun s a hs => shape_setFunctionModule _ _ _ _ _ hs)
  exact h

/-- `drawVersion` preserves the grid shapes. -/
theorem shape_drawVersion (version size : Nat) (g : QrGrids)
    (h : QrGridsShape size g) : QrGridsShape size (drawVersion version size g) := by
  rw [drawVersion]
  split
  · exact h
  · exact foldl_invariant (QrGridsShape size) _
      (fun s a hs => shape_setFunctionModule _ _ _ _ _
        (shape_setFunctionModule _ _ _ _ _ hs)) _ _ h

/-- `drawFunctionPatterns` preserves the grid shapes. -/
theorem shape_drawFunctionPatterns (version size : Nat) (ecl : QrEcc) (g : QrGrids)
    (h : QrGridsShape size g) :
    QrGridsShape size (drawFunctionPatterns version size ecl g) := by
  simp only [drawFunctionPatterns]
  apply shape_drawVersion
  apply shape_drawFormatBits
  refine foldl_invariant (QrGridsShape size) _ (fun s a hs => ?_) _ _ ?_
  · refine foldl_invariant (QrGridsShape size) _ (fun s2 a2 hs2 => ?_) _ _ hs
    split
    · exact hs2
    · exact shape_drawAlignmentPattern _ _ _ _ hs2
  · apply shape_drawFinderPattern
    apply shape_drawFinderPattern
    apply shape_drawFinderPattern
    exact foldl_invariant (QrGridsShape size) _
      (fun s a hs => shape_setFunctionModule _ _ _ _ _
        (shape_setFunctionModule _ _ _ _ _ hs)) _ _ h

/-- The zig-zag codeword placement preserves the grid shapes. -/
theorem shape_drawCodewordsLoop (size : Nat) (data : List Nat) (g : QrGrids)
    (h : QrGridsShape size g) : QrGridsShape size (drawCodewordsLoop size data g).1 := by
  rw [drawCodewordsLoop]
  refine foldl_invariant (fun st : QrGrids × Nat => QrGridsShape size st.1)
    _ (fun s a hs => ?_) (zigzagRights (size - 1)) (g, 0) h
  refine foldl_invariant (fun st : QrGrids × Nat => QrGridsShape size st.1)
    _ (fun s2 a2 hs2 => ?_) _ _ hs
  refine foldl_invariant (fun st : QrGrids × Nat => QrGridsShape size st.1)
    _ (fun s3 a3 hs3 => ?_) _ _ hs2
  dsimp only
  split <;> split
  · exact ⟨gridShape_gridSet size s3.1.modules _ _ _ hs3.1, hs3.2⟩
  · exact hs3
  · exact ⟨gridShape_gridSet size s3.1.modules _ _ _ hs3.1, hs3.2⟩
  · exact hs3
/-- The all-light starting grids are `size × size`. -/
theorem shape_initialGrids (size : Nat) : QrGridsShape size (initialGrids size) := by
  constructor <;>
    exact ⟨by simp [initialGrids], fun row hr => by
      rw [List.eq_of_mem_replicate hr]; simp⟩

/-- The pattern counter returns at most 2. -/
theorem finderPenaltyCountPatterns_le (rh : List Nat) :
    finderPenaltyCountPatterns rh ≤ 2 := by
  rw [finderPenaltyCountPatterns]
  split <;> split <;> omega

/-- The line terminator contributes at most 2 patterns. -/
theorem finderPenaltyTerminateAndCount_le (size : Nat) (c : Bool) (len : Nat)
    (rh : List Nat) : finderPenaltyTerminateAndCount size c len rh ≤ 2 := by
  rw [finderPenaltyTerminateAndCount]
  exact finderPenaltyCountPatterns_le _

/-- One line step adds at most 80 to the running penalty. -/
theorem penaltyLineStep_result_le (size : Nat) (st : Bool × Nat × List Nat × Nat)
    (cell : Bool) : (penaltyLineStep size st cell).2.2.2 ≤ st.2.2.2 + 80 := by
  rw [penaltyLineStep]
  split
  · simp only [PENALTY_N1]
    split
    · omega
    · split <;> omega
  · split
    · have := finderPenaltyCountPatterns_le (finderPenaltyAddHistory size st.2.1 st.2.2.1)
      simp only [PENALTY_N3]
      omega
    · exact Nat.le_add_right _ 80

/-- A fold whose step adds at most `c` to a projection is bounded by the list
length. -/
theorem foldl_result_le {α σ : Type} (proj : σ → Nat) (f : σ → α → σ) (c : Nat)
    (h : ∀ s a, proj (f s a) ≤ proj s + c) :
    ∀ (l : List α) (s : σ), proj (l.foldl f s) ≤ proj s + c * l.length := by
  intro l
  induction l with
  | nil => intro s; simp
  | cons a t ih =>
    intro s
    have h1 := h s a
    have h2 := ih (f s a)
    simp only [List.foldl_cons, List.length_cons, Nat.mul_succ]
    omega

/-- One line contributes at most `80·length + 80` to the penalty. -/
theorem penaltyLine_le (size : Nat) (line : List Bool) :
    penaltyLine size line ≤ 80 * line.length + 80 := by
  rw [penaltyLine]
  have hfold := foldl_result_le (fun st : Bool × Nat × List Nat × Nat => st.2.2.2)
    (penaltyLineStep size) 80 (fun s a => penaltyLineStep_result_le size s a)
    line (false, 0, [0, 0, 0, 0, 0, 0, 0], 0)
  have hterm := finderPenaltyTerminateAndCount_le size
    (line.foldl (penaltyLineStep size) (false, 0, [0, 0, 0, 0, 0, 0, 0], 0)).1
    (line.foldl (penaltyLineStep size) (false, 0, [0, 0, 0, 0, 0, 0, 0], 0)).2.1
    (line.foldl (penaltyLineStep size) (false, 0, [0, 0, 0, 0, 0, 0, 0], 0)).2.2.1
  dsimp only at hfold
  simp only [PENALTY_N3]
  omega

/-- Sum bound for a map with a uniform bound. -/
theorem sum_map_le {α : Type} (f : α → Nat) (c : Nat) :
    ∀ l : List α, (∀ x ∈ l, f x ≤ c) → (l.map f).sum ≤ c * l.length := by
  intro l
  induction l with
  | nil => intro _; simp
  | cons a t ih =>
    intro h
    simp only [List.map_cons, List.sum_cons, List.length_cons, Nat.mul_succ]
    have h1 := h a (List.mem_cons_self a t)
    have h2 := ih (fun x hx => h x (List.mem_cons_of_mem a hx))
    omega

/-- Sum of a map that is constant on the list. -/
theorem sum_map_eq_of_const {α : Type} (f : α → Nat) (c : Nat) :
    ∀ l : List α, (∀ x ∈ l, f x = c) → (l.map f).sum = c * l.length := by
  intro l
  induction l with
  | nil => intro _; simp
  | cons a t ih =>
    intro h
    simp only [List.map_cons, List.sum_cons, List.length_cons, Nat.mul_succ]
    rw [h a (List.mem_cons_self a t), ih (fun x hx => h x (List.mem_cons_of_mem a hx))]
    omega

/-- The dark-module count is bounded by the total cell count. -/
theorem darkCount_le : ∀ (rows : List (List Bool)) (d : Nat),
    rows.foldl (fun d row => row.foldl (fun s c => s + if c then 1 else 0) d) d ≤
      d + (rows.map List.length).sum := by
  intro rows
  induction rows with
  | nil => intro d; simp
  | cons row rest ih =>
    intro d
    simp only [List.foldl_cons, List.map_cons, List.sum_cons]
    have hrow := foldl_result_le (fun s : Nat => s) (fun s c => s + if c then 1 else 0) 1
      (fun s a => by cases a <;> simp) row d
    have := ih (row.foldl (fun s c => s + if c then 1 else 0) d)
    omega

/-- The dark/light balance term `k` is at most 9. -/
theorem balance_k_le (dark total : Nat) (h1 : dark ≤ total) (h2 : 0 < total) :
    penaltyBalanceK dark total ≤ 9 := by
  rw [penaltyBalanceK]
  have habs : ((20 * dark : Int) - (10 * total : Int)).natAbs ≤ 10 * total := by omega
  have h3 : ((20 * dark : Int) - (10 * total : Int)).natAbs + total - 1 ≤ 11 * total - 1 := by
    omega
  have hdiv : (11 * total - 1) / total < 11 := by
    rw [Nat.div_lt_iff_lt_mul h2]
    omega
  have := Nat.div_le_div_right (c := total) h3
  omega

/-- A generic bound on the penalty score of any `size × size` grid: far below
the `10^9` starting value of the automatic mask search. -/
theorem getPenaltyScore_le (size : Nat) (modules : List (List Bool))
    (hshape : GridShape size modules) :
    getPenaltyScore size modules ≤
      2 * ((80 * size + 80) * size) + (3 * (size - 1)) * (size - 1) + 90 := by
  obtain ⟨hlen, hrow⟩ := hshape
  rcases Nat.eq_zero_or_pos size with rfl | hpos
  · rw [getPenaltyScore]
    simp only [List.range_zero, List.map_nil, List.sum_nil, Nat.zero_mul]
    have hmod : modules = [] := List.length_eq_zero.mp hlen
    subst hmod
    decide
  · rw [getPenaltyScore]
    have hr1 : (((List.range size).map (fun y =>
        (List.range size).map (fun x => gridGet modules x y))).map (penaltyLine size)).sum ≤
        (80 * size + 80) * size := by
      have := sum_map_le (penaltyLine size) (80 * size + 80)
        ((List.range size).map (fun y => (List.range size).map (fun x => gridGet modules x y)))
        (by
          intro r hr
          simp only [List.mem_map] at hr
          obtain ⟨y, -, rfl⟩ := hr
          have := penaltyLine_le size ((List.range size).map (fun x => gridGet modules x y))
          simpa using this)
      simpa using this
    have hr2 : (((List.range size).map (fun x =>
        (List.range size).map (fun y => gridGet modules x y))).map (penaltyLine size)).sum ≤
        (80 * size + 80) * size := by
      have := sum_map_le (penaltyLine size) (80 * size + 80)
        ((List.range size).map (fun x => (List.range size).map (fun y => gridGet modules x y)))
        (by
          intro r hr
          simp only [List.mem_map] at hr
          obtain ⟨x, -, rfl⟩ := hr
          have := penaltyLine_le size ((List.range size).map (fun y => gridGet modules x y))
          simpa using this)
      simpa using this
    have hr3 : ((List.range (size - 1)).map (fun y =>
        ((List.range (size - 1)).map (fun x =>
          if (gridGet modules x y == gridGet modules (x + 1) y) &&
              (gridGet modules x y == gridGet modules x (y + 1)) &&
              (gridGet modules x y == gridGet modules (x + 1) (y + 1))
          then PENALTY_N2 else 0)).sum)).sum ≤ (3 * (size - 1)) * (size - 1) := by
      have := sum_map_le (fun y => ((List.range (size - 1)).map (fun x =>
          if (gridGet modules x y == gridGet modules (x + 1) y) &&
              (gridGet modules x y == gridGet modules x (y + 1)) &&
              (gridGet modules x y == gridGet modules (x + 1) (y + 1))
          then PENALTY_N2 else 0)).sum) (3 * (size - 1)) (List.range (size - 1))
        (by
          intro y _
          have := sum_map_le (fun x =>
            if (gridGet modules x y == gridGet modules (x + 1) y) &&
                (gridGet modules x y == gridGet modules x (y + 1)) &&
                (gridGet modules x y == gridGet modules (x + 1) (y + 1))
            then PENALTY_N2 else 0) 3 (List.range (size - 1))
            (by intro x _; simp only [PENALTY_N2]; split <;> omega)
          simpa [Nat.mul_comm] using this)
      simpa [Nat.mul_comm] using this
    have hdark : modules.foldl (fun d row =>
        row.foldl (fun s c => s + if c then 1 else 0) d) 0 ≤ size * size := by
      have := darkCount_le modules 0
      rw [sum_map_eq_of_const List.length size modules hrow, hlen] at this
      omega
    have hk := balance_k_le (modules.foldl (fun d row =>
        row.foldl (fun s c => s + if c then 1 else 0) d) 0) (size * size) hdark
      (by positivity)
    simp only [PENALTY_N4]
    omega

/-- On grids of the sizes the constructor builds, the penalty score is below
the automatic-mask search's `10^9` sentinel. -/
theorem getPenaltyScore_lt (size : Nat) (modules : List (List Bool))
    (hshape : GridShape size modules) (h2 : size ≤ 177) :
    getPenaltyScore size modules < 1000000000 := by
  have hb := getPenaltyScore_le size modules hshape
  have m1 : (80 * size + 80) * size ≤ (80 * 177 + 80) * 177 :=
    Nat.mul_le_mul (by omega) h2
  have m2 : (3 * (size - 1)) * (size - 1) ≤ (3 * 176) * 176 :=
    Nat.mul_le_mul (by omega) (by omega)
  omega

/-- One auto-mask pass leaves the best mask unchanged or sets it to the
current index. -/
theorem autoMaskStep_mask (size : Nat) (ecl : QrEcc) (g : QrGrids) (m : Int)
    (p : Nat) (i : Nat) :
    (autoMaskStep size ecl (g, m, p) i).2.1 = m ∨
    (autoMaskStep size ecl (g, m, p) i).2.1 = (i : Int) := by
  rw [autoMaskStep]
  dsimp only
  split
  · right; rfl
  · left; rfl

/-- An auto-mask pass whose penalty beats the running best adopts the current
index. -/
theorem autoMaskStep_updates (size : Nat) (ecl : QrEcc) (g : QrGrids) (m : Int)
    (p : Nat) (i : Nat)
    (h : getPenaltyScore size
      (drawFormatBits size ecl i ⟨applyMask size i g.isFunction g.modules,
        g.isFunction⟩).modules < p) :
    (autoMaskStep size ecl (g, m, p) i).2.1 = (i : Int) := by
  rw [autoMaskStep]
  dsimp only
  rw [if_pos h]

/-- Auto-mask passes preserve the grid shapes. -/
theorem shape_autoMaskStep (size : Nat) (ecl : QrEcc) (st : QrGrids × Int × Nat)
    (i : Nat) (h : QrGridsShape size st.1) :
    QrGridsShape size (autoMaskStep size ecl st i).1 := by
  rw [autoMaskStep]
  dsimp only
  set g2 := drawFormatBits size ecl i
    ⟨applyMask size i st.1.isFunction st.1.modules, st.1.isFunction⟩ with hg2
  clear_value g2
  have h2 : QrGridsShape size g2 := by
    rw [hg2]
    exact shape_drawFormatBits size ecl i _
      ⟨gridShape_applyMask size i st.1.isFunction st.1.modules, h.2⟩
  exact ⟨gridShape_applyMask size i _ _, h2.2⟩

/-- The automatic mask search always ends with a mask index in 0..7: its
first pass already beats the `10^9` sentinel (the penalty of a `size × size`
grid is far smaller), and later passes only switch to their own index. -/
theorem autoMaskLoop_mask_range (size : Nat) (ecl : QrEcc) (g : QrGrids)
    (hsize : size ≤ 177) (hisf : GridShape size g.isFunction) :
    0 ≤ ((List.range 8).foldl (autoMaskStep size ecl) (g, -1, 1000000000)).2.1 ∧
    ((List.range 8).foldl (autoMaskStep size ecl) (g, -1, 1000000000)).2.1 ≤ 7 := by
  have h8 : List.range 8 = 0 :: [1, 2, 3, 4, 5, 6, 7] := rfl
  rw [h8, List.foldl_cons]
  set s1 := autoMaskStep size ecl (g, -1, 1000000000) 0 with hs1
  clear_value s1
  have hfirst : s1.2.1 = ((0 : Nat) : Int) := by
    rw [hs1]
    refine autoMaskStep_updates size ecl g (-1) 1000000000 0 ?_
    refine getPenaltyScore_lt size _ ?_ hsize
    exact (shape_drawFormatBits size ecl 0
      ⟨applyMask size 0 g.isFunction g.modules, g.isFunction⟩
      ⟨gridShape_applyMask size 0 g.isFunction g.modules, hisf⟩).1
  refine foldl_invariant_mem (fun st : QrGrids × Int × Nat => 0 ≤ st.2.1 ∧ st.2.1 ≤ 7)
    _ [1, 2, 3, 4, 5, 6, 7] (fun s a ha hs => ?_) _ ?_
  · obtain ⟨g2, m2, p2⟩ := s
    have ha7 : a ≤ 7 := by
      simp only [List.mem_cons, List.not_mem_nil, or_false] at ha
      omega
    rcases autoMaskStep_mask size ecl g2 m2 p2 a with h | h <;> rw [h]
    · exact hs
    · constructor
      · exact Int.natCast_nonneg a
      · exact_mod_cast ha7
  · show 0 ≤ s1.2.1 ∧ s1.2.1 ≤ 7
    rw [hfirst]
    constructor <;> decide

/-- Within range 0..7, the checked mask application succeeds and returns the
plain `applyMask` result. -/
theorem applyMaskChecked_ok (size : Nat) (m : Int) (isF mod : List (List Bool))
    (h1 : 0 ≤ m) (h2 : m ≤ 7) :
    applyMaskChecked size m isF mod = .ok (applyMask size m.toNat isF mod) := by
  rw [applyMaskChecked, if_neg (by omega)]

/-- The final masking-plus-format-bits pass of the constructor keeps the
module grid `size x size`. -/
theorem shape_finalFormat (size : Nat) (ecl : QrEcc) (m : Nat) (gq : QrGrids)
    (h : QrGridsShape size gq) :
    GridShape size (drawFormatBits size ecl m
      ⟨applyMask size m gq.isFunction gq.modules, gq.isFunction⟩).modules :=
  (shape_drawFormatBits size ecl m
    ⟨applyMask size m gq.isFunction gq.modules, gq.isFunction⟩
    ⟨gridShape_applyMask size m gq.isFunction gq.modules, h.2⟩).1

/-- C10: for every version in 1..40, ECC level, mask argument in −1..7 and
data codeword list `d`, the low-level `QrCode` constructor throws
`RangeError("Invalid argument")` exactly when `d.length` differs from
`getNumDataCodewords(version, ecl)`, and otherwise completes to a well-formed
symbol: the stated version and ECC level, `size = version·4 + 17`, a final
mask in 0..7 (also when the automatic search was requested with `msk = −1`),
and a `size × size` module grid. -/
theorem qrCode_constructor_spec (version : Nat) (ecl : QrEcc) (d : List Nat) (msk : Int)
    (h1 : 1 ≤ version) (h2 : version ≤ 40) (hecl : ecl ∈ eccLevels)
    (hm1 : -1 ≤ msk) (hm2 : msk ≤ 7) :
    ((d.length : Int) ≠ getNumDataCodewords version ecl →
      mkQrCode version ecl d msk = .error "Invalid argument") ∧
    ((d.length : Int) = getNumDataCodewords version ecl →
      ∃ q, mkQrCode version ecl d msk = .ok q ∧ q.version = version ∧
        q.errorCorrectionLevel = ecl ∧ q.size = version * 4 + 17 ∧ q.mask ≤ 7 ∧
        q.modules.length = q.size ∧ ∀ row ∈ q.modules, row.length = q.size) := by
  constructor
  · intro hne
    rw [mkQrCode, if_neg (by omega), if_neg (by omega)]
    have haddecc : addEccAndnumbererleave version ecl d = .error "Invalid argument" := by
      rw [addEccAndnumbererleave, if_pos hne]
    rw [haddecc]
  · intro heq
    obtain ⟨res, hres, hreslen⟩ := addEccAndnumbererleave_length version ecl h1 h2 hecl d heq
    have hshape : QrGridsShape (version * 4 + 17)
        ((drawCodewordsLoop (version * 4 + 17) res
          (drawFunctionPatterns version (version * 4 + 17) ecl
            (initialGrids (version * 4 + 17)))).1) :=
      shape_drawCodewordsLoop _ _ _
        (shape_drawFunctionPatterns version _ ecl _ (shape_initialGrids _))
    rw [mkQrCode, if_neg (by omega), if_neg (by omega), hres]
    dsimp only
    rw [drawCodewords, if_neg (by omega)]
    dsimp only
    set gd := (drawCodewordsLoop (version * 4 + 17) res
      (drawFunctionPatterns version (version * 4 + 17) ecl
        (initialGrids (version * 4 + 17)))).1 with hgd
    clear_value gd
    by_cases hmsk : msk = -1
    · subst hmsk
      rw [if_pos (rfl : (-1 : Int) = -1)]
      obtain ⟨hge0, hle0⟩ := autoMaskLoop_mask_range (version * 4 + 17) ecl gd
        (by omega) hshape.2
      set st := List.foldl (autoMaskStep (version * 4 + 17) ecl)
        (gd, -1, 1000000000) (List.range 8) with hst
      clear_value st
      have hstshape : QrGridsShape (version * 4 + 17) st.1 := by
        rw [hst]
        exact foldl_invariant
          (fun s : QrGrids × Int × Nat => QrGridsShape (version * 4 + 17) s.1)
          _ (fun s a hs => shape_autoMaskStep _ ecl s a hs) _ _ hshape
      rw [applyMaskChecked_ok _ st.2.1 _ _ hge0 hle0]
      dsimp only
      set gfin := drawFormatBits (version * 4 + 17) ecl st.2.1.toNat
        ⟨applyMask (version * 4 + 17) st.2.1.toNat st.1.isFunction st.1.modules,
          st.1.isFunction⟩ with hgfin
      clear_value gfin
      have hsh : GridShape (version * 4 + 17) gfin.modules := by
        rw [hgfin]
        exact shape_finalFormat (version * 4 + 17) ecl st.2.1.toNat st.1 hstshape
      refine ⟨_, rfl, rfl, rfl, rfl, ?_, ?_, ?_⟩
      · show st.2.1.toNat ≤ 7
        omega
      · show gfin.modules.length = version * 4 + 17
        exact hsh.1
      · show ∀ row ∈ gfin.modules, row.length = version * 4 + 17
        exact fun row hr => hsh.2 row hr
    · rw [if_neg hmsk]
      dsimp only
      have h0 : (0 : Int) ≤ msk := by omega
      rw [applyMaskChecked_ok _ msk _ _ h0 hm2]
      dsimp only
      set gfin := drawFormatBits (version * 4 + 17) ecl msk.toNat
        ⟨applyMask (version * 4 + 17) msk.toNat gd.isFunction gd.modules,
          gd.isFunction⟩ with hgfin
      clear_value gfin
      have hsh : GridShape (version * 4 + 17) gfin.modules := by
        rw [hgfin]
        exact shape_finalFormat (version * 4 + 17) ecl msk.toNat gd hshape
      refine ⟨_, rfl, rfl, rfl, rfl, ?_, ?_, ?_⟩
      · show msk.toNat ≤ 7
        omega
      · show gfin.modules.length = version * 4 + 17
        exact hsh.1
      · show ∀ row ∈ gfin.modules, row.length = version * 4 + 17
        exact fun row hr => hsh.2 row hr

/-- Witness for C10 at a concrete input: version 1, LOW level, 19 zero data
codewords, explicit mask 0. -/
theorem qrCode_constructor_spec_witness :
    (((List.replicate 19 (0 : Nat)).length : Int) ≠ getNumDataCodewords 1 QrEcc.LOW →
      mkQrCode 1 QrEcc.LOW (List.replicate 19 0) 0 = .error "Invalid argument") ∧
    (((List.replicate 19 (0 : Nat)).length : Int) = getNumDataCodewords 1 QrEcc.LOW →
      ∃ q, mkQrCode 1 QrEcc.LOW (List.replicate 19 0) 0 = .ok q ∧ q.version = 1 ∧
        q.errorCorrectionLevel = QrEcc.LOW ∧ q.size = 1 * 4 + 17 ∧ q.mask ≤ 7 ∧
        q.modules.length = q.size ∧ ∀ row ∈ q.modules, row.length = q.size) :=
  qrCode_constructor_spec 1 QrEcc.LOW (List.replicate 19 0) 0
    (by decide) (by decide) (by decide) (by decide) (by decide)
